import Mathlib

/-!
# Verification of the pet-photo feed listing, pagination and cursor codec

Shallow embedding of the feed backend of this repository:

* `src/backend/server.js` — the flat-file Express server: `safeText`,
  `parseCursor` / `makeCursor` (numeric `createdAt`), the
  `GET /api/posts` filter/sort/slice pipeline, `createStore.remove`,
  and the `POST /api/posts` field normalization.
* `src/api/_petFeedStore.js` — the Postgres-backed store: `safeText`,
  `parseCursor` / `makeCursor` (ISO-string `createdAt`), `listPosts`
  (SQL `LIKE` filter, keyset tuple comparison, `ORDER BY`, `LIMIT`),
  `insertPost`, `deletePostById`.
* `src/api/posts.js` — the serverless handler wrapping the store.

Modelling conventions (JavaScript / SQL built-ins):

* JS numbers are modelled by `JSNum` (NaN, ±infinity, or a finite rational).
  The app only manipulates integral millisecond timestamps and small limits,
  so exact rationals stand in for IEEE doubles; double rounding is not
  modelled.
* JS strings are Lean `String`s (sequences of Unicode scalar values).
  `slice` / length counts are modelled in scalar values rather than UTF-16
  code units, `trim` uses `Char.isWhitespace`, and `toLowerCase` maps
  `Char.toLower`; `localeCompare` and SQL text collation are both modelled
  as code-point order.
* `Array.prototype.sort` (stable since ES2019) with a consistent comparator
  and SQL `ORDER BY` are both modelled by the stable `List.mergeSort`.
* `Buffer.from(·, 'base64url')` is modelled by a decoder accepting both
  base64 alphabets and optional trailing padding; Node's decoder is slightly
  more lenient (it skips stray characters), which only moves some malformed
  tokens between "decodes to garbage" and "fails to decode" — both of which
  `parseCursor` maps to the invalid sentinel.
* `Buffer.prototype.toString('utf8')` is modelled by a strict UTF-8 decoder
  returning `none` on invalid bytes, where Node substitutes U+FFFD; again
  both paths end in the invalid sentinel for the inputs of interest.
* `JSON.parse` / `JSON.stringify` are modelled by a complete JSON
  parser/printer over a `JVal` syntax tree (numbers as exact rationals,
  duplicate object keys resolved to the last occurrence as in JS).
* `Date.parse` (as used to validate cursor timestamps), the Postgres
  `::timestamptz` cast of a cursor timestamp, and `Date.prototype.toJSON`
  are modelled by an exact parser/printer pair `isoToMs` / `msToIso` for the
  canonical ISO-8601 form `YYYY-MM-DDTHH:MM:SS.sssZ` that the application
  itself produces.
-/

namespace PetFeed

/-! ## JavaScript number model -/

/-- A JavaScript number: NaN, ±∞, or a finite value (modelled exactly as a
rational; the app only compares, clamps and truncates numbers). -/
inductive JSNum where
  | nan : JSNum
  | inf : JSNum
  | ninf : JSNum
  | num (q : ℚ) : JSNum
deriving DecidableEq, Repr

/-- `x || d` on numbers: NaN and 0 are falsy. -/
def JSNum.orDefault (x : JSNum) (d : ℚ) : JSNum :=
  match x with
  | .nan => .num d
  | .num q => if q = 0 then .num d else .num q
  | .inf => .inf
  | .ninf => .ninf

/-- `Math.min`. -/
def jsMin (a b : JSNum) : JSNum :=
  match a, b with
  | .nan, _ => .nan
  | _, .nan => .nan
  | .ninf, _ => .ninf
  | _, .ninf => .ninf
  | .inf, b => b
  | a, .inf => a
  | .num p, .num q => .num (min p q)

/-- `Math.max`. -/
def jsMax (a b : JSNum) : JSNum :=
  match a, b with
  | .nan, _ => .nan
  | _, .nan => .nan
  | .inf, _ => .inf
  | _, .inf => .inf
  | .ninf, b => b
  | a, .ninf => a
  | .num p, .num q => .num (max p q)

/-- `Number.isFinite`. -/
def JSNum.isFiniteNum : JSNum → Bool
  | .num _ => true
  | _ => false

/-- `ToIntegerOrInfinity` truncation toward zero of a finite JS number. -/
def jsTrunc (q : ℚ) : Int :=
  if 0 ≤ q then q.floor else -((-q).floor)

/-- `l.slice(0, x)`: NaN and −∞ truncate to 0, +∞ takes everything,
a negative end counts from the end of the array. -/
def jsSlice (x : JSNum) (l : List α) : List α :=
  match x with
  | .nan => []
  | .ninf => []
  | .inf => l
  | .num q =>
      if 0 ≤ q then l.take (jsTrunc q).toNat
      else l.take (l.length - (-(jsTrunc q)).toNat)

/-- `n === x` between an array length and a JS number. -/
def jsEqNat (n : Nat) (x : JSNum) : Bool :=
  match x with
  | .num q => decide ((n : ℚ) = q)
  | _ => false

/-! ## JavaScript string helpers -/

/-- `String.prototype.trim`, modelled over the scalar sequence with
`Char.isWhitespace` (JS trims a slightly larger Unicode whitespace set). -/
def jsTrimList (l : List Char) : List Char :=
  ((l.dropWhile Char.isWhitespace).reverse.dropWhile Char.isWhitespace).reverse

/-- `safeText` (identical in `server.js` and `_petFeedStore.js`):
non-strings normalize to `''`; strings are trimmed and, when a cap is given,
sliced to at most `maxLen` characters.  `none` models a `typeof ≠ 'string'`
input (absent query/body values included). -/
def safeText (value : Option String) (maxLen : Nat) : String :=
  match value with
  | none => ""
  | some s =>
      let trimmed := jsTrimList s.data
      if maxLen = 0 then ⟨trimmed⟩ else ⟨trimmed.take maxLen⟩

/-- `String.prototype.toLowerCase` (and SQL `LOWER`), modelled over the
scalar sequence with `Char.toLower`. -/
def jsToLower (s : String) : String :=
  ⟨s.data.map Char.toLower⟩

/-- `s || d` on strings: the empty string is falsy. -/
def jsOrString (s d : String) : String :=
  if s = "" then d else s

/-- `haystack.includes(needle)`. -/
def jsIncludes (hay pat : String) : Bool :=
  decide (pat.data <:+: hay.data)

/-! ## Decimal digits (used by `JSON.stringify` on integral numbers) -/

/-- The decimal digit character for `n < 10`. -/
def digitChar10 (n : Nat) : Char := Char.ofNat (48 + n)

/-- Decimal digits of a natural number, most significant first. -/
def natDigits (n : Nat) : List Char :=
  if _h : n < 10 then [digitChar10 n]
  else natDigits (n / 10) ++ [digitChar10 (n % 10)]
termination_by n
decreasing_by
  exact Nat.div_lt_self (by omega) (by omega)

/-- `JSON.stringify` of an integral JS number (the only numbers the app
ever serializes: millisecond timestamps). -/
def intToDecimal (i : Int) : List Char :=
  if i < 0 then '-' :: natDigits (-i).toNat else natDigits i.toNat

/-- Numeric value of a list of decimal digit characters. -/
def digitsVal (ds : List Char) : Nat :=
  ds.foldl (fun a c => a * 10 + (c.toNat - 48)) 0

/-! ## base64url (`Buffer.from(·,'base64url')` / `buf.toString('base64url')`) -/

/-- The base64url alphabet character of a sextet `n < 64`. -/
def base64Char (n : Nat) : Char :=
  if n < 26 then Char.ofNat (65 + n)
  else if n < 52 then Char.ofNat (97 + (n - 26))
  else if n < 62 then Char.ofNat (48 + (n - 52))
  else if n = 62 then '-'
  else '_'

/-- Sextet value of an alphabet character; Node's decoder accepts both the
base64 and base64url alphabets. -/
def base64Val (c : Char) : Option Nat :=
  if 'A' ≤ c ∧ c ≤ 'Z' then some (c.toNat - 65)
  else if 'a' ≤ c ∧ c ≤ 'z' then some (c.toNat - 97 + 26)
  else if '0' ≤ c ∧ c ≤ '9' then some (c.toNat - 48 + 52)
  else if c = '-' ∨ c = '+' then some 62
  else if c = '_' ∨ c = '/' then some 63
  else none

/-- base64url encoding of a byte list (no padding, as Node emits). -/
def b64urlEncode : List Nat → List Char
  | [] => []
  | [b1] => [base64Char (b1 / 4), base64Char (b1 % 4 * 16)]
  | [b1, b2] =>
      [base64Char (b1 / 4), base64Char (b1 % 4 * 16 + b2 / 16),
       base64Char (b2 % 16 * 4)]
  | b1 :: b2 :: b3 :: rest =>
      base64Char (b1 / 4) :: base64Char (b1 % 4 * 16 + b2 / 16) ::
      base64Char (b2 % 16 * 4 + b3 / 64) :: base64Char (b3 % 64) ::
      b64urlEncode rest

/-- Decode a run of sextet characters (padding already stripped). -/
def b64Groups : List Char → Option (List Nat)
  | [] => some []
  | [c1] =>
      -- a single trailing sextet carries no complete byte; Node drops it
      match base64Val c1 with
      | some _ => some []
      | none => none
  | [c1, c2] =>
      match base64Val c1, base64Val c2 with
      | some s1, some s2 => some [s1 * 4 + s2 / 16]
      | _, _ => none
  | [c1, c2, c3] =>
      match base64Val c1, base64Val c2, base64Val c3 with
      | some s1, some s2, some s3 =>
          some [s1 * 4 + s2 / 16, s2 % 16 * 16 + s3 / 4]
      | _, _, _ => none
  | c1 :: c2 :: c3 :: c4 :: rest =>
      match base64Val c1, base64Val c2, base64Val c3, base64Val c4,
          b64Groups rest with
      | some s1, some s2, some s3, some s4, some bs =>
          some ((s1 * 4 + s2 / 16) :: (s2 % 16 * 16 + s3 / 4) ::
                (s3 % 4 * 64 + s4) :: bs)
      | _, _, _, _, _ => none

/-- base64url decoding; trailing `=` padding is accepted and ignored. -/
def b64urlDecode (l : List Char) : Option (List Nat) :=
  b64Groups (l.takeWhile (· ≠ '='))

/-! ## UTF-8 (`Buffer.from(·,'utf8')` / `buf.toString('utf8')`) -/

/-- UTF-8 encoding of one Unicode scalar value. -/
def utf8EncodeChar (c : Char) : List Nat :=
  let n := c.toNat
  if n < 0x80 then [n]
  else if n < 0x800 then [0xC0 + n / 0x40, 0x80 + n % 0x40]
  else if n < 0x10000 then
    [0xE0 + n / 0x1000, 0x80 + n / 0x40 % 0x40, 0x80 + n % 0x40]
  else
    [0xF0 + n / 0x40000, 0x80 + n / 0x1000 % 0x40, 0x80 + n / 0x40 % 0x40,
     0x80 + n % 0x40]

/-- UTF-8 encoding of a scalar sequence. -/
def utf8Encode (s : List Char) : List Nat :=
  (s.map utf8EncodeChar).flatten

/-- Is `b` a UTF-8 continuation byte? -/
def isCont (b : Nat) : Bool := 0x80 ≤ b ∧ b < 0xC0

/-- Decode one UTF-8 sequence: the scalar of the first sequence and the
number of continuation bytes it used.  Strict: overlong forms, surrogates
and out-of-range values are rejected.  Node substitutes U+FFFD where this
model fails; every such divergence still ends in `parseCursor`'s invalid
sentinel. -/
def utf8DecodeOne (b1 : Nat) (rest : List Nat) : Option (Char × Nat) :=
  if b1 < 0x80 then some (Char.ofNat b1, 0)
  else if b1 < 0xC0 then none
  else if b1 < 0xE0 then
    match rest with
    | b2 :: _ =>
        if isCont b2 then
          let n := (b1 - 0xC0) * 0x40 + (b2 - 0x80)
          if n < 0x80 then none else some (Char.ofNat n, 1)
        else none
    | [] => none
  else if b1 < 0xF0 then
    match rest with
    | b2 :: b3 :: _ =>
        if isCont b2 ∧ isCont b3 then
          let n := (b1 - 0xE0) * 0x1000 + (b2 - 0x80) * 0x40 + (b3 - 0x80)
          if n < 0x800 then none
          else if 0xD800 ≤ n ∧ n < 0xE000 then none
          else some (Char.ofNat n, 2)
        else none
    | _ => none
  else if b1 < 0xF8 then
    match rest with
    | b2 :: b3 :: b4 :: _ =>
        if isCont b2 ∧ isCont b3 ∧ isCont b4 then
          let n := (b1 - 0xF0) * 0x40000 + (b2 - 0x80) * 0x1000 +
            (b3 - 0x80) * 0x40 + (b4 - 0x80)
          if n < 0x10000 then none
          else if 0x110000 ≤ n then none
          else some (Char.ofNat n, 3)
        else none
    | _ => none
  else none

/-- Strict UTF-8 decoding of a byte list (see `utf8DecodeOne`). -/
def utf8Decode : List Nat → Option (List Char)
  | [] => some []
  | b1 :: rest =>
      match utf8DecodeOne b1 rest with
      | some (c, extra) =>
          (utf8Decode (rest.drop extra)).map (fun cs => c :: cs)
      | none => none
termination_by l => l.length
decreasing_by
  simp only [List.length_cons, List.length_drop]
  omega

/-! ## JSON (`JSON.parse` / `JSON.stringify`) -/

/-- A JSON value.  Numbers are exact rationals; object fields keep their
textual order (duplicate keys are resolved at lookup, last wins, as
`JSON.parse` does). -/
inductive JVal where
  | null : JVal
  | bool (b : Bool) : JVal
  | num (q : ℚ) : JVal
  | str (s : List Char) : JVal
  | arr (elems : List JVal) : JVal
  | obj (fields : List (List Char × JVal)) : JVal

/-- Lowercase hexadecimal digit for `n < 16`. -/
def hexChar (n : Nat) : Char :=
  if n < 10 then Char.ofNat (48 + n) else Char.ofNat (87 + n)

/-- Value of a hexadecimal digit character (either case). -/
def hexVal (c : Char) : Option Nat :=
  if '0' ≤ c ∧ c ≤ '9' then some (c.toNat - 48)
  else if 'a' ≤ c ∧ c ≤ 'f' then some (c.toNat - 87)
  else if 'A' ≤ c ∧ c ≤ 'F' then some (c.toNat - 55)
  else none

/-- `JSON.stringify` escaping of one string character: quote, backslash and
C0 controls are escaped, everything else is emitted verbatim. -/
def escapeChar (c : Char) : List Char :=
  if c = '"' then ['\\', '"']
  else if c = '\\' then ['\\', '\\']
  else if c.toNat ≥ 0x20 then [c]
  else if c.toNat = 0x08 then ['\\', 'b']
  else if c.toNat = 0x09 then ['\\', 't']
  else if c.toNat = 0x0A then ['\\', 'n']
  else if c.toNat = 0x0C then ['\\', 'f']
  else if c.toNat = 0x0D then ['\\', 'r']
  else ['\\', 'u', '0', '0', hexChar (c.toNat / 16), hexChar (c.toNat % 16)]

/-- `JSON.stringify` of a string: quoted, with characters escaped. -/
def quoteString (s : List Char) : List Char :=
  '"' :: (s.map escapeChar).flatten ++ ['"']

/-- JSON whitespace (space, tab, line feed, carriage return). -/
def isJsonWs (c : Char) : Bool :=
  c = ' ' ∨ c = '\t' ∨ c = '\n' ∨ c = '\r'

/-- Skip JSON whitespace. -/
def skipWs (l : List Char) : List Char := l.dropWhile isJsonWs

/-- Read the value of the first four characters as hexadecimal digits. -/
def hex4 : List Char → Option Nat
  | h1 :: h2 :: h3 :: h4 :: _ =>
      match hexVal h1, hexVal h2, hexVal h3, hexVal h4 with
      | some v1, some v2, some v3, some v4 =>
          some (v1 * 4096 + v2 * 256 + v3 * 16 + v4)
      | _, _, _, _ => none
  | _ => none

/-- Parse the body of a JSON string after the opening quote; returns the
decoded characters and the input after the closing quote.  Unpaired
surrogate escapes become U+FFFD (a JS string artifact Lean strings cannot
represent; the app never produces them). -/
def parseStringBody : List Char → Option (List Char × List Char)
  | [] => none
  | c :: r =>
      if c = '"' then some ([], r)
      else if c = '\\' then
        match r with
        | [] => none
        | e :: r2 =>
            if e = '"' ∨ e = '\\' ∨ e = '/' then
              match parseStringBody r2 with
              | some (s, rest) => some (e :: s, rest)
              | none => none
            else if e = 'b' ∨ e = 't' ∨ e = 'n' ∨ e = 'f' ∨ e = 'r' then
              let d : Char :=
                if e = 'b' then Char.ofNat 8
                else if e = 't' then Char.ofNat 9
                else if e = 'n' then Char.ofNat 10
                else if e = 'f' then Char.ofNat 12
                else Char.ofNat 13
              match parseStringBody r2 with
              | some (s, rest) => some (d :: s, rest)
              | none => none
            else if e = 'u' then
              match hex4 r2 with
              | some n =>
                  if 0xD800 ≤ n ∧ n < 0xDC00 then
                    match r2.drop 4 with
                    | '\\' :: 'u' :: r4 =>
                        match hex4 r4 with
                        | some m =>
                            if 0xDC00 ≤ m ∧ m < 0xE000 then
                              let cp := 0x10000 + (n - 0xD800) * 0x400 + (m - 0xDC00)
                              -- after the six-character low-surrogate escape: r4.drop 4 = r2.drop 10
                              match parseStringBody (r2.drop 10) with
                              | some (s, rest) => some (Char.ofNat cp :: s, rest)
                              | none => none
                            else
                              match parseStringBody (r2.drop 4) with
                              | some (s, rest) => some (Char.ofNat 0xFFFD :: s, rest)
                              | none => none
                        | none =>
                            match parseStringBody (r2.drop 4) with
                            | some (s, rest) => some (Char.ofNat 0xFFFD :: s, rest)
                            | none => none
                    | _ =>
                        match parseStringBody (r2.drop 4) with
                        | some (s, rest) => some (Char.ofNat 0xFFFD :: s, rest)
                        | none => none
                  else if 0xDC00 ≤ n ∧ n < 0xE000 then
                    match parseStringBody (r2.drop 4) with
                    | some (s, rest) => some (Char.ofNat 0xFFFD :: s, rest)
                    | none => none
                  else
                    match parseStringBody (r2.drop 4) with
                    | some (s, rest) => some (Char.ofNat n :: s, rest)
                    | none => none
              | none => none
            else none
      else if c.toNat < 0x20 then none
      else
        match parseStringBody r with
        | some (s, rest) => some (c :: s, rest)
        | none => none
termination_by l => l.length
decreasing_by
  all_goals simp_all
  all_goals omega

/-- Parse a run of decimal digits (at least one); returns the digit
characters and the rest. -/
def spanDigits (l : List Char) : List Char × List Char :=
  (l.takeWhile Char.isDigit, l.dropWhile Char.isDigit)

/-- Optional leading minus sign of a JSON number. -/
def parseSign (l : List Char) : Bool × List Char :=
  if l.head? = some '-' then (true, l.drop 1) else (false, l)

/-- Integer part of a JSON number: `0 | [1-9][0-9]*` (no leading zeros). -/
def parseIntPart (l : List Char) : Option (Nat × List Char) :=
  match spanDigits l with
  | ([], _) => none
  | (d :: ds, rest) =>
      if d = '0' ∧ ds ≠ [] then none else some (digitsVal (d :: ds), rest)

/-- Optional fractional part of a JSON number: `(. [0-9]+)?`. -/
def parseFrac (l : List Char) : Option (ℚ × List Char) :=
  if l.head? = some '.' then
    match spanDigits (l.drop 1) with
    | ([], _) => none
    | (ds, rest) => some ((digitsVal ds : ℚ) / ((10 : ℚ) ^ ds.length), rest)
  else some (0, l)

/-- Optional exponent part of a JSON number: `([eE] [+-]? [0-9]+)?`. -/
def parseExp (l : List Char) : Option (Int × List Char) :=
  if l.head? = some 'e' ∨ l.head? = some 'E' then
    let r := l.drop 1
    let sr : Bool × List Char :=
      if r.head? = some '+' then (false, r.drop 1)
      else if r.head? = some '-' then (true, r.drop 1)
      else (false, r)
    match spanDigits sr.2 with
    | ([], _) => none
    | (ds, rest) =>
        some (if sr.1 then -(digitsVal ds : Int) else (digitsVal ds : Int), rest)
  else some (0, l)

/-- Parse a JSON number literal; returns its exact rational value.
Grammar: `-? (0 | [1-9][0-9]*) (. [0-9]+)? ([eE] [+-]? [0-9]+)?`. -/
def parseNumber (l : List Char) : Option (ℚ × List Char) :=
  let sn := parseSign l
  match parseIntPart sn.2 with
  | none => none
  | some (ip, l2) =>
      match parseFrac l2 with
      | none => none
      | some (fp, l3) =>
          match parseExp l3 with
          | none => none
          | some (ep, l4) =>
              let mag : ℚ := ((ip : ℚ) + fp) * (10 : ℚ) ^ ep
              some (if sn.1 then -mag else mag, l4)

mutual

/-- Fuel-indexed JSON value parser (the fuel bounds recursion depth across
nested values; any fuel of at least twice the input length suffices). -/
def parseValue : Nat → List Char → Option (JVal × List Char)
  | 0, _ => none
  | fuel + 1, l =>
      match skipWs l with
      | [] => none
      | c :: r =>
          if c = 'n' then
            match r with
            | 'u' :: 'l' :: 'l' :: rest => some (.null, rest)
            | _ => none
          else if c = 't' then
            match r with
            | 'r' :: 'u' :: 'e' :: rest => some (.bool true, rest)
            | _ => none
          else if c = 'f' then
            match r with
            | 'a' :: 'l' :: 's' :: 'e' :: rest => some (.bool false, rest)
            | _ => none
          else if c = '"' then
            match parseStringBody r with
            | some (s, rest) => some (.str s, rest)
            | none => none
          else if c = '[' then
            match skipWs r with
            | ']' :: rest => some (.arr [], rest)
            | r2 => parseElems fuel r2
          else if c = '{' then
            match skipWs r with
            | '}' :: rest => some (.obj [], rest)
            | r2 => parseFields fuel r2
          else
            match parseNumber (c :: r) with
            | some (q, rest) => some (.num q, rest)
            | none => none

/-- Parse the elements of a non-empty JSON array (after `[` and leading
whitespace), including the closing bracket. -/
def parseElems : Nat → List Char → Option (JVal × List Char)
  | 0, _ => none
  | fuel + 1, l =>
      match parseValue fuel l with
      | some (v, rest) =>
          match skipWs rest with
          | ',' :: r2 =>
              match parseElems fuel (skipWs r2) with
              | some (.arr vs, rest2) => some (.arr (v :: vs), rest2)
              | _ => none
          | ']' :: r2 => some (.arr [v], r2)
          | _ => none
      | none => none

/-- Parse the members of a non-empty JSON object (after `{` and leading
whitespace), including the closing brace. -/
def parseFields : Nat → List Char → Option (JVal × List Char)
  | 0, _ => none
  | fuel + 1, l =>
      match l with
      | '"' :: r =>
          match parseStringBody r with
          | some (k, rest) =>
              match skipWs rest with
              | ':' :: r2 =>
                  match parseValue fuel r2 with
                  | some (v, rest2) =>
                      match skipWs rest2 with
                      | ',' :: r3 =>
                          match parseFields fuel (skipWs r3) with
                          | some (.obj fs, rest3) => some (.obj ((k, v) :: fs), rest3)
                          | _ => none
                      | '}' :: r3 => some (.obj [(k, v)], r3)
                      | _ => none
                  | none => none
              | _ => none
          | none => none
      | _ => none

end

/-- `JSON.parse`: parse a complete JSON text (trailing whitespace allowed,
anything else rejected). -/
def jsonParse (l : List Char) : Option JVal :=
  match parseValue (2 * l.length + 8) l with
  | some (v, rest) => if skipWs rest = [] then some v else none
  | none => none

/-- Property lookup on a parsed JSON object: `JSON.parse` keeps the last
duplicate key, so the last binding wins. -/
def jGet (fields : List (List Char × JVal)) (k : List Char) : Option JVal :=
  (fields.reverse.find? (fun f => f.1 = k)).map (·.2)

/-! ## Canonical ISO-8601 timestamps

Model of `Date.prototype.toJSON` (`msToIso`) and of `Date.parse` / the
Postgres `::timestamptz` cast (`isoToMs`), restricted to the canonical
format `YYYY-MM-DDTHH:MM:SS.sssZ` that the application itself produces
(years 0–9999). -/

/-- Number of days in a month of the proleptic Gregorian calendar. -/
def daysInMonth (y : Int) (m : Nat) : Nat :=
  if m = 1 ∨ m = 3 ∨ m = 5 ∨ m = 7 ∨ m = 8 ∨ m = 10 ∨ m = 12 then 31
  else if m = 4 ∨ m = 6 ∨ m = 9 ∨ m = 11 then 30
  else if y % 4 = 0 ∧ (y % 100 ≠ 0 ∨ y % 400 = 0) then 29
  else 28

/-- Civil date `(year, month, day)` of a day count since 1970-01-01
(Howard Hinnant's `civil_from_days`). -/
def civilFromDays (z0 : Int) : Int × Nat × Nat :=
  let z := z0 + 719468
  let era := Int.ediv z 146097
  let doe := (z - era * 146097).toNat
  let yoe := (doe - doe / 1460 + doe / 36524 - doe / 146096) / 365
  let y := (yoe : Int) + era * 400
  let doy := doe - (365 * yoe + yoe / 4 - yoe / 100)
  let mp := (5 * doy + 2) / 153
  let d := doy - (153 * mp + 2) / 5 + 1
  let m := if mp < 10 then mp + 3 else mp - 9
  (if m ≤ 2 then y + 1 else y, m, d)

/-- Day count since 1970-01-01 of a civil date (Hinnant's
`days_from_civil`). -/
def daysFromCivil (y0 : Int) (m d : Nat) : Int :=
  let y := if m ≤ 2 then y0 - 1 else y0
  let era := Int.ediv y 400
  let yoe := (y - era * 400).toNat
  let mp := if 3 ≤ m then m - 3 else m + 9
  let doy := (153 * mp + 2) / 5 + d - 1
  let doe := yoe * 365 + yoe / 4 - yoe / 100 + doy
  era * 146097 + (doe : Int) - 719468

/-- Left-pad the decimal digits of `n` with zeros to width `w`. -/
def padNat (w n : Nat) : List Char :=
  let ds := natDigits n
  List.replicate (w - ds.length) '0' ++ ds

/-- `Date.prototype.toJSON`: canonical ISO form of a millisecond timestamp. -/
def msToIso (t : Int) : String :=
  let day := Int.ediv t 86400000
  let msod := (t - day * 86400000).toNat
  let ymd := civilFromDays day
  let hh := msod / 3600000
  let mi := msod / 60000 % 60
  let ss := msod / 1000 % 60
  let ms := msod % 1000
  ⟨padNat 4 ymd.1.toNat ++ '-' :: padNat 2 ymd.2.1 ++ '-' :: padNat 2 ymd.2.2 ++
   'T' :: padNat 2 hh ++ ':' :: padNat 2 mi ++ ':' :: padNat 2 ss ++
   '.' :: padNat 3 ms ++ ['Z']⟩

/-- Decimal value of a fixed run of digit characters, or `none` if any is
not a digit. -/
def digitsValOk (ds : List Char) : Option Nat :=
  if ds.all Char.isDigit then some (digitsVal ds) else none

/-- `Date.parse` / `::timestamptz` on the canonical ISO form: returns the
millisecond timestamp, or `none` (NaN / cast error) for anything that is
not a valid canonical ISO date-time. -/
def isoToMs (s : String) : Option Int :=
  match s.data with
  | [y1, y2, y3, y4, c1, m1, m2, c2, d1, d2, ct, h1, h2, c3, i1, i2, c4,
     s1, s2, c5, f1, f2, f3, cz] =>
      if c1 = '-' ∧ c2 = '-' ∧ ct = 'T' ∧ c3 = ':' ∧ c4 = ':' ∧ c5 = '.' ∧ cz = 'Z' then
        match digitsValOk [y1, y2, y3, y4], digitsValOk [m1, m2],
            digitsValOk [d1, d2], digitsValOk [h1, h2], digitsValOk [i1, i2],
            digitsValOk [s1, s2], digitsValOk [f1, f2, f3] with
        | some y, some mo, some dy, some hh, some mi, some ss, some ms =>
            if 1 ≤ mo ∧ mo ≤ 12 ∧ 1 ≤ dy ∧ dy ≤ daysInMonth (y : Int) mo ∧
                hh < 24 ∧ mi < 60 ∧ ss < 60 then
              some (daysFromCivil (y : Int) mo dy * 86400000 +
                ((hh * 60 + mi) * 60 + ss) * 1000 + (ms : Int))
            else none
        | _, _, _, _, _, _, _ => none
      else none
  | _ => none

/-! ## Cursor codecs

`server.js` (flat file): `createdAt` is a millisecond number.
`_petFeedStore.js` (Postgres): `createdAt` is an ISO timestamp string. -/

/-- A decoded flat-file cursor: `{ createdAt: number, id: string }`. -/
structure ServerCursor where
  createdAt : ℚ
  id : String
deriving DecidableEq, Repr

/-- A decoded store cursor: `{ createdAt: ISO string, id: string }`. -/
structure StoreCursor where
  createdAt : String
  id : String
deriving DecidableEq, Repr

/-- `JSON.stringify({ createdAt, id })` with a numeric `createdAt`. -/
def cursorJsonNum (createdAt : Int) (id : List Char) : List Char :=
  "\x7b\"createdAt\":".data ++ intToDecimal createdAt ++
    ",\"id\":".data ++ quoteString id ++ "\x7d".data

/-- `JSON.stringify({ createdAt, id })` with a string `createdAt` (the store
calls `makeCursor` on a `Date`, which stringifies via `toJSON` to the
canonical ISO string). -/
def cursorJsonStr (createdAt id : List Char) : List Char :=
  "\x7b\"createdAt\":".data ++ quoteString createdAt ++
    ",\"id\":".data ++ quoteString id ++ "\x7d".data

/-- `makeCursor` of `server.js`: base64url of the JSON of the pair. -/
def makeCursorServer (createdAt : Int) (id : String) : String :=
  ⟨b64urlEncode (utf8Encode (cursorJsonNum createdAt id.data))⟩

/-- `makeCursor` of `_petFeedStore.js`, applied to a row's `created_at`
timestamp (serialized to the canonical ISO string) and `id`. -/
def makeCursorStore (createdAt : String) (id : String) : String :=
  ⟨b64urlEncode (utf8Encode (cursorJsonStr createdAt.data id.data))⟩

/-- `parseCursor` of `server.js`: base64url-decode, UTF-8-decode,
`JSON.parse`, then require an object with a numeric `createdAt` and a
string `id`; anything else (or a thrown error) is the invalid sentinel
`none`. `none`/`""` input models a falsy `cursor` argument. -/
def parseCursorServer (cursor : Option String) : Option ServerCursor :=
  match cursor with
  | none => none
  | some s =>
      if s = "" then none
      else
        match b64urlDecode s.data with
        | none => none
        | some bytes =>
            match utf8Decode bytes with
            | none => none
            | some chars =>
                match jsonParse chars with
                | none => none
                | some v =>
                    match v with
                    | .obj fields =>
                        match jGet fields "createdAt".data, jGet fields "id".data with
                        | some (.num t), some (.str i) => some ⟨t, ⟨i⟩⟩
                        | _, _ => none
                    | _ => none

/-- `parseCursor` of `_petFeedStore.js`: like the server's, but `createdAt`
must be a string whose `Date.parse` is not NaN. -/
def parseCursorStore (cursor : Option String) : Option StoreCursor :=
  match cursor with
  | none => none
  | some s =>
      if s = "" then none
      else
        match b64urlDecode s.data with
        | none => none
        | some bytes =>
            match utf8Decode bytes with
            | none => none
            | some chars =>
                match jsonParse chars with
                | none => none
                | some v =>
                    match v with
                    | .obj fields =>
                        match jGet fields "createdAt".data, jGet fields "id".data with
                        | some (.str ca), some (.str i) =>
                            if isoToMs ⟨ca⟩ = none then none
                            else some ⟨⟨ca⟩, ⟨i⟩⟩
                        | _, _ => none
                    | _ => none

/-! ## The flat-file backend (`server.js`) -/

/-- A stored post record of the flat-file backend (`posts.json` entry,
written by the `POST /api/posts` handler). -/
structure FilePost where
  id : String
  petName : String
  petType : String
  caption : String
  createdAt : Int
  imagePath : String
deriving DecidableEq, Repr

/-- The search haystack: `` `${petName} ${petType} ${caption}` ``,
lowercased. -/
def postHaystack (p : FilePost) : String :=
  jsToLower (p.petName ++ " " ++ p.petType ++ " " ++ p.caption)

/-- The `newest` comparator `(b.createdAt - a.createdAt) ||
b.id.localeCompare(a.id)` as a ≤-test for the stable sort. -/
def newestLE (a b : FilePost) : Bool :=
  decide (b.createdAt < a.createdAt) ||
    (decide (b.createdAt = a.createdAt) && decide (b.id ≤ a.id))

/-- The `oldest` comparator `(a.createdAt - b.createdAt) ||
a.id.localeCompare(b.id)` as a ≤-test for the stable sort. -/
def oldestLE (a b : FilePost) : Bool :=
  decide (a.createdAt < b.createdAt) ||
    (decide (a.createdAt = b.createdAt) && decide (a.id ≤ b.id))

/-- Keyset condition for `sort=oldest`:
`p.createdAt > c.createdAt || (p.createdAt === c.createdAt && p.id > c.id)`. -/
def keepAfterOldest (c : ServerCursor) (p : FilePost) : Bool :=
  decide (c.createdAt < (p.createdAt : ℚ)) ||
    (decide ((p.createdAt : ℚ) = c.createdAt) && decide (c.id < p.id))

/-- Keyset condition for `sort=newest`:
`p.createdAt < c.createdAt || (p.createdAt === c.createdAt && p.id < c.id)`. -/
def keepAfterNewest (c : ServerCursor) (p : FilePost) : Bool :=
  decide ((p.createdAt : ℚ) < c.createdAt) ||
    (decide ((p.createdAt : ℚ) = c.createdAt) && decide (p.id < c.id))

/-- Query parameters of `GET /api/posts`.  `limit` is
`Number(req.query.limit)` for a present non-empty parameter (`none` for an
absent or empty one); `sort`, `q` and `cursor` are the raw string
parameters. -/
structure ListQuery where
  limit : Option JSNum
  sort : Option String
  q : Option String
  cursor : Option String

/-- Effective limit of the flat-file handler:
`Number.isFinite(limitRaw) ? Math.max(1, Math.min(50, limitRaw)) : 20`
with `limitRaw = Number(req.query.limit || 20)`. -/
def serverLimit (o : Option JSNum) : JSNum :=
  let limitRaw := o.getD (.num 20)
  if limitRaw.isFiniteNum then jsMax (.num 1) (jsMin (.num 50) limitRaw)
  else .num 20

/-- `String(req.query.sort || 'newest')`. -/
def sortParam (o : Option String) : String := o.getD "newest"

/-- The search filter step (`if (q) items = items.filter(...)`). -/
def serverFilterQ (q : String) (items : List FilePost) : List FilePost :=
  if q ≠ "" then items.filter (fun p => jsIncludes (postHaystack p) q)
  else items

/-- The sort step (stable sort with the chosen comparator). -/
def serverSort (sort : String) (items : List FilePost) : List FilePost :=
  if sort = "oldest" then items.mergeSort oldestLE
  else items.mergeSort newestLE

/-- The keyset filter step (`if (cursor) items = items.filter(...)`). -/
def serverCursorFilter (sort : String) (cur : Option ServerCursor)
    (items : List FilePost) : List FilePost :=
  match cur with
  | none => items
  | some c =>
      items.filter (fun p =>
        if sort = "oldest" then keepAfterOldest c p else keepAfterNewest c p)

/-- Response shape of `GET /api/posts` (posts, plus the derived cursor;
`imageUrl` absolutization is outside the model). -/
structure ServerResponse where
  posts : List FilePost
  nextCursor : Option String
deriving DecidableEq, Repr

/-- The `GET /api/posts` handler of `server.js`: filter, sort, keyset
filter, slice, and derive `nextCursor` from the last returned row when the
page is exactly full. -/
def serverGetPosts (posts : List FilePost) (qry : ListQuery) : ServerResponse :=
  let limit := serverLimit qry.limit
  let sort := sortParam qry.sort
  let q := jsToLower (safeText qry.q 80)
  let cursor := parseCursorServer qry.cursor
  let items := serverFilterQ q posts
  let items2 := serverSort sort items
  let items3 := serverCursorFilter sort cursor items2
  let slice := jsSlice limit items3
  let next := if jsEqNat slice.length limit then slice.getLast? else none
  ⟨slice, next.map (fun p => makeCursorServer p.createdAt p.id)⟩

/-- `createStore().remove`: find the first record with the id, splice it
out; `(removed?, remaining records)`. -/
def removeStore (posts : List FilePost) (id : String) :
    Option FilePost × List FilePost :=
  match posts.find? (fun p => decide (p.id = id)) with
  | none => (none, posts)
  | some p => (some p, posts.eraseP (fun p => decide (p.id = id)))

/-- The record the `POST /api/posts` handler stores: `safeText` caps of
40/24/240 characters, `petType` defaulting to `"Other"`. -/
def mkFilePost (petName petType caption : Option String) (id : String)
    (createdAt : Int) (imagePath : String) : FilePost :=
  ⟨id, safeText petName 40, jsOrString (safeText petType 24) "Other",
   safeText caption 240, createdAt, imagePath⟩

/-! ## The Postgres-backed store (`_petFeedStore.js`) -/

/-- A `pet_photo_posts` row.  `created_at` is the `timestamptz` instant,
modelled as integral milliseconds since the epoch. -/
structure SqlRow where
  id : String
  pet_name : String
  pet_type : String
  caption : String
  image_url : String
  created_at : Int
deriving DecidableEq, Repr

/-- `LOWER(pet_name || ' ' || pet_type || ' ' || caption)`. -/
def rowHaystack (r : SqlRow) : String :=
  jsToLower (r.pet_name ++ " " ++ r.pet_type ++ " " ++ r.caption)

/-- SQL `LIKE` with `%`, `_` and backslash escapes, over code points. -/
def likeMatch : List Char → List Char → Bool
  | [], t => t.isEmpty
  | '%' :: ps, t =>
      likeMatch ps t ||
        (match t with
         | [] => false
         | _ :: t2 => likeMatch ('%' :: ps) t2)
  | '_' :: ps, t =>
      (match t with
       | [] => false
       | _ :: t2 => likeMatch ps t2)
  | '\\' :: c :: ps, t =>
      (match t with
       | [] => false
       | c2 :: t2 => decide (c2 = c) && likeMatch ps t2)
  | c :: ps, t =>
      (match t with
       | [] => false
       | c2 :: t2 => decide (c2 = c) && likeMatch ps t2)
termination_by p t => (p.length, t.length)

/-- `ORDER BY created_at ASC, id ASC` as a ≤-test. -/
def sqlOldestLE (a b : SqlRow) : Bool :=
  decide (a.created_at < b.created_at) ||
    (decide (a.created_at = b.created_at) && decide (a.id ≤ b.id))

/-- `ORDER BY created_at DESC, id DESC` as a ≤-test. -/
def sqlNewestLE (a b : SqlRow) : Bool :=
  decide (b.created_at < a.created_at) ||
    (decide (b.created_at = a.created_at) && decide (b.id ≤ a.id))

/-- `safeLimit = Math.max(1, Math.min(50, Number(limit) || 20))`
(`none` models an absent `limit`, whose `Number` is NaN). -/
def storeSafeLimit (limit : Option JSNum) : JSNum :=
  jsMax (.num 1) (jsMin (.num 50) ((limit.getD .nan).orDefault 20))

/-- Row count of SQL `LIMIT` for the clamped limit (integral in every
reachable case; a fractional value is modelled by truncation). -/
def limitCount (x : JSNum) : Nat :=
  match x with
  | .num q => (jsTrunc q).toNat
  | _ => 0

/-- SQL tuple comparison `(created_at, id) > (t, cid)`. -/
def rowTupleAfter (t : Int) (cid : String) (r : SqlRow) : Bool :=
  decide (t < r.created_at) ||
    (decide (r.created_at = t) && decide (cid < r.id))

/-- SQL tuple comparison `(created_at, id) < (t, cid)`. -/
def rowTupleBefore (t : Int) (cid : String) (r : SqlRow) : Bool :=
  decide (r.created_at < t) ||
    (decide (r.created_at = t) && decide (r.id < cid))

/-- `listPosts` of `_petFeedStore.js`: the SQL query's meaning over the
table — `LIKE` filter, keyset tuple comparison against the (cast) cursor,
`ORDER BY` on `(created_at, id)`, `LIMIT safeLimit`.  The `|| default`
fallbacks mirror the source's parameter expressions; the `.getD 0` on the
timestamp cast is unreachable because `parseCursor` already validated the
timestamp with the same parser. -/
def listPosts (table : List SqlRow) (limit : Option JSNum)
    (sort : Option String) (q : Option String) (cursor : Option String) :
    List SqlRow :=
  let safeLimit := storeSafeLimit limit
  let safeSort := if sort = some "oldest" then "oldest" else "newest"
  let query := jsToLower (safeText q 80)
  let parsedCursor := parseCursorStore cursor
  if safeSort = "oldest" then
    let kept := table.filter (fun r =>
      (decide (query = "") ||
        likeMatch ('%' :: query.data ++ ['%']) (rowHaystack r).data) &&
      (match parsedCursor with
       | none => true
       | some cur =>
           rowTupleAfter
             ((isoToMs (jsOrString cur.createdAt "1970-01-01T00:00:00.000Z")).getD 0)
             (jsOrString cur.id "") r))
    (kept.mergeSort sqlOldestLE).take (limitCount safeLimit)
  else
    let kept := table.filter (fun r =>
      (decide (query = "") ||
        likeMatch ('%' :: query.data ++ ['%']) (rowHaystack r).data) &&
      (match parsedCursor with
       | none => true
       | some cur =>
           rowTupleBefore
             ((isoToMs (jsOrString cur.createdAt "9999-12-31T23:59:59.999Z")).getD 0)
             (jsOrString cur.id "zzzzzzzz") r))
    (kept.mergeSort sqlNewestLE).take (limitCount safeLimit)

/-- The row `insertPost` stores (id and `created_at` assigned at
insertion). -/
def insertPost (petName petType caption : Option String) (imageUrl : String)
    (id : String) (created_at : Int) : SqlRow :=
  ⟨id, safeText petName 40, jsOrString (safeText petType 24) "Other",
   safeText caption 240, imageUrl, created_at⟩

/-- `deletePostById`: SQL `DELETE ... WHERE id = $1 RETURNING ...`;
`result.rows[0] || null` plus the remaining table. -/
def deletePostById (table : List SqlRow) (id : String) :
    Option SqlRow × List SqlRow :=
  ((table.filter (fun r => decide (r.id = id))).head?,
   table.filter (fun r => decide (r.id ≠ id)))

/-! ## The serverless API (`posts.js`) -/

/-- A response DTO of `posts.js` (`createdAt` is modelled as the row's
instant; the source round-trips it through `Date` stringification). -/
structure ApiPost where
  id : String
  petName : String
  petType : String
  caption : String
  createdAt : Int
  imageUrl : String
deriving DecidableEq, Repr

/-- Response shape of the `GET` branch of `posts.js`. -/
structure ApiResponse where
  posts : List ApiPost
  nextCursor : Option String
deriving DecidableEq, Repr

/-- The `GET` branch of `posts.js`: list rows, map to DTOs, and derive
`nextCursor` from the last row whenever the page is non-empty
(`rows.length ? rows[rows.length - 1] : null`). -/
def apiGetPosts (table : List SqlRow) (limit : Option JSNum)
    (sort : Option String) (q : Option String) (cursor : Option String) :
    ApiResponse :=
  let rows := listPosts table limit sort q cursor
  let next := rows.getLast?
  ⟨rows.map (fun r => ⟨r.id, r.pet_name, r.pet_type, r.caption,
      r.created_at, r.image_url⟩),
   next.map (fun r => makeCursorStore (msToIso r.created_at) r.id)⟩

/-- The representation of a logical flat-file record in the Postgres
backend (same logical record set, per the dual-backend contract). -/
def rowOfPost (p : FilePost) : SqlRow :=
  ⟨p.id, p.petName, p.petType, p.caption, p.imagePath, p.createdAt⟩

/-! ## Full pagination through the flat-file backend -/

/-- A well-formed flat-file cursor token: non-empty, base64url-decodable to
UTF-8 text that `JSON.parse` accepts as an object with a numeric
`createdAt` and a string `id`. -/
def wellFormedServerCursor (s : String) : Prop :=
  s ≠ "" ∧ ∃ chars fields t i,
    (b64urlDecode s.data).bind utf8Decode = some chars ∧
    jsonParse chars = some (.obj fields) ∧
    jGet fields "createdAt".data = some (.num t) ∧
    jGet fields "id".data = some (.str i)

/-- A well-formed store cursor token: like `wellFormedServerCursor` but with
a string `createdAt` whose `Date.parse` succeeds. -/
def wellFormedStoreCursor (s : String) : Prop :=
  s ≠ "" ∧ ∃ chars fields ca i,
    (b64urlDecode s.data).bind utf8Decode = some chars ∧
    jsonParse chars = some (.obj fields) ∧
    jGet fields "createdAt".data = some (.str ca) ∧
    jGet fields "id".data = some (.str i) ∧
    isoToMs ⟨ca⟩ ≠ none

/-! # Theorems

## base64url round-trip -/

theorem base64Val_base64Char : ∀ n, n < 64 → base64Val (base64Char n) = some n := by
  decide

theorem base64Char_ne_pad (n : Nat) (h : n < 64) : base64Char n ≠ '=' := by
  revert n h
  decide

theorem b64urlEncode_no_pad (bs : List Nat) (h : ∀ b ∈ bs, b < 256) :
    ∀ c ∈ b64urlEncode bs, c ≠ '=' := by
  induction bs using b64urlEncode.induct with
  | case1 => simp [b64urlEncode]
  | case2 b1 =>
      have hb1 : b1 < 256 := h b1 (by simp)
      simp only [b64urlEncode, List.mem_cons, List.not_mem_nil, or_false]
      rintro c (rfl | rfl) <;> exact base64Char_ne_pad _ (by omega)
  | case3 b1 b2 =>
      have hb1 : b1 < 256 := h b1 (by simp)
      have hb2 : b2 < 256 := h b2 (by simp)
      simp only [b64urlEncode, List.mem_cons, List.not_mem_nil, or_false]
      rintro c (rfl | rfl | rfl) <;> exact base64Char_ne_pad _ (by omega)
  | case4 b1 b2 b3 rest ih =>
      have hb1 : b1 < 256 := h b1 (by simp)
      have hb2 : b2 < 256 := h b2 (by simp)
      have hb3 : b3 < 256 := h b3 (by simp)
      have hrest : ∀ b ∈ rest, b < 256 := fun b hb => h b (by simp [hb])
      simp only [b64urlEncode, List.mem_cons]
      rintro c (rfl | rfl | rfl | rfl | hc)
      · exact base64Char_ne_pad _ (by omega)
      · exact base64Char_ne_pad _ (by omega)
      · exact base64Char_ne_pad _ (by omega)
      · exact base64Char_ne_pad _ (by omega)
      · exact ih hrest c hc

theorem b64Groups_encode (bs : List Nat) (h : ∀ b ∈ bs, b < 256) :
    b64Groups (b64urlEncode bs) = some bs := by
  induction bs using b64urlEncode.induct with
  | case1 => simp [b64urlEncode, b64Groups]
  | case2 b1 =>
      have hb1 : b1 < 256 := h b1 (by simp)
      simp only [b64urlEncode, b64Groups,
        base64Val_base64Char _ (by omega : b1 / 4 < 64),
        base64Val_base64Char _ (by omega : b1 % 4 * 16 < 64)]
      congr 2
      omega
  | case3 b1 b2 =>
      have hb1 : b1 < 256 := h b1 (by simp)
      have hb2 : b2 < 256 := h b2 (by simp)
      simp only [b64urlEncode, b64Groups,
        base64Val_base64Char _ (by omega : b1 / 4 < 64),
        base64Val_base64Char _ (by omega : b1 % 4 * 16 + b2 / 16 < 64),
        base64Val_base64Char _ (by omega : b2 % 16 * 4 < 64)]
      congr 2
      · omega
      · congr 1
        omega
  | case4 b1 b2 b3 rest ih =>
      have hb1 : b1 < 256 := h b1 (by simp)
      have hb2 : b2 < 256 := h b2 (by simp)
      have hb3 : b3 < 256 := h b3 (by simp)
      have hrest : ∀ b ∈ rest, b < 256 := fun b hb => h b (by simp [hb])
      match hrec : b64urlEncode rest with
      | [] =>
          rw [hrec] at ih
          simp only [b64urlEncode, hrec, b64Groups,
            base64Val_base64Char _ (by omega : b1 / 4 < 64),
            base64Val_base64Char _ (by omega : b1 % 4 * 16 + b2 / 16 < 64),
            base64Val_base64Char _ (by omega : b2 % 16 * 4 + b3 / 64 < 64),
            base64Val_base64Char _ (by omega : b3 % 64 < 64)]
          simp only [b64Groups] at ih
          obtain rfl : rest = [] := by
            cases (ih hrest)
            rfl
          congr 2
          · omega
          · congr 1
            · omega
            · congr 1
              omega
      | c :: cs =>
          have ih2 := ih hrest
          rw [hrec] at ih2
          simp only [b64urlEncode, hrec, b64Groups,
            base64Val_base64Char _ (by omega : b1 / 4 < 64),
            base64Val_base64Char _ (by omega : b1 % 4 * 16 + b2 / 16 < 64),
            base64Val_base64Char _ (by omega : b2 % 16 * 4 + b3 / 64 < 64),
            base64Val_base64Char _ (by omega : b3 % 64 < 64), ih2]
          congr 2
          · omega
          · congr 1
            · omega
            · congr 1
              omega

/-- The base64url codec round-trips on byte lists. -/
theorem b64url_roundtrip (bs : List Nat) (h : ∀ b ∈ bs, b < 256) :
    b64urlDecode (b64urlEncode bs) = some bs := by
  unfold b64urlDecode
  rw [List.takeWhile_eq_self_iff.mpr ?_]
  · exact b64Groups_encode bs h
  · intro c hc
    simpa using b64urlEncode_no_pad bs h c hc

/-! ## UTF-8 round-trip -/

theorem char_valid_nat (c : Char) :
    c.toNat < 0xD800 ∨ (0xDFFF < c.toNat ∧ c.toNat < 0x110000) := by
  have h := c.valid
  simpa [UInt32.isValidChar, Nat.isValidChar] using h

theorem utf8EncodeChar_lt_256 (c : Char) : ∀ b ∈ utf8EncodeChar c, b < 256 := by
  have hv := char_valid_nat c
  intro b hb
  by_cases h1 : c.toNat < 0x80
  · simp only [utf8EncodeChar, if_pos h1] at hb
    simp only [List.mem_singleton] at hb
    omega
  · by_cases h2 : c.toNat < 0x800
    · simp only [utf8EncodeChar, if_neg h1, if_pos h2] at hb
      simp only [List.mem_cons, List.not_mem_nil, or_false] at hb
      rcases hb with rfl | rfl <;> omega
    · by_cases h3 : c.toNat < 0x10000
      · simp only [utf8EncodeChar, if_neg h1, if_neg h2, if_pos h3] at hb
        simp only [List.mem_cons, List.not_mem_nil, or_false] at hb
        rcases hb with rfl | rfl | rfl <;> omega
      · simp only [utf8EncodeChar, if_neg h1, if_neg h2, if_neg h3] at hb
        simp only [List.mem_cons, List.not_mem_nil, or_false] at hb
        rcases hb with rfl | rfl | rfl | rfl <;> omega

theorem utf8Encode_lt_256 (s : List Char) : ∀ b ∈ utf8Encode s, b < 256 := by
  intro b hb
  simp only [utf8Encode, List.mem_flatten, List.mem_map] at hb
  obtain ⟨l, ⟨c, _, rfl⟩, hbl⟩ := hb
  exact utf8EncodeChar_lt_256 c b hbl

theorem utf8Decode_cons (b1 : Nat) (rest : List Nat) :
    utf8Decode (b1 :: rest) =
      match utf8DecodeOne b1 rest with
      | some (c, extra) => (utf8Decode (rest.drop extra)).map (fun cs => c :: cs)
      | none => none := by
  rw [utf8Decode.eq_def]

theorem utf8Decode_encodeChar (c : Char) (rest : List Nat) :
    utf8Decode (utf8EncodeChar c ++ rest) =
      (utf8Decode rest).map (fun cs => c :: cs) := by
  have hv := char_valid_nat c
  by_cases h1 : c.toNat < 0x80
  · rw [show utf8EncodeChar c = [c.toNat] by
      simp only [utf8EncodeChar]
      rw [if_pos h1]]
    rw [List.cons_append, List.nil_append]
    have hone : utf8DecodeOne c.toNat rest = some (c, 0) := by
      simp only [utf8DecodeOne]
      rw [if_pos h1, Char.ofNat_toNat]
    rw [utf8Decode_cons, hone]
    simp only [List.drop_zero]
  · by_cases h2 : c.toNat < 0x800
    · rw [show utf8EncodeChar c = [0xC0 + c.toNat / 0x40, 0x80 + c.toNat % 0x40] by
        simp only [utf8EncodeChar]
        rw [if_neg h1, if_pos h2]]
      rw [List.cons_append, List.cons_append, List.nil_append]
      have hone : utf8DecodeOne (0xC0 + c.toNat / 0x40) ((0x80 + c.toNat % 0x40) :: rest)
          = some (c, 1) := by
        simp only [utf8DecodeOne]
        rw [if_neg (by omega), if_neg (by omega), if_pos (by omega)]
        rw [if_pos (show isCont (0x80 + c.toNat % 0x40) = true by
          simp only [isCont, decide_eq_true_eq]
          omega)]
        rw [if_neg (by omega)]
        rw [show (0xC0 + c.toNat / 0x40 - 0xC0) * 0x40 + (0x80 + c.toNat % 0x40 - 0x80)
              = c.toNat by omega, Char.ofNat_toNat]
      rw [utf8Decode_cons, hone]
      simp only [List.drop_succ_cons, List.drop_zero]
    · by_cases h3 : c.toNat < 0x10000
      · rw [show utf8EncodeChar c
            = [0xE0 + c.toNat / 0x1000, 0x80 + c.toNat / 0x40 % 0x40, 0x80 + c.toNat % 0x40] by
          simp only [utf8EncodeChar]
          rw [if_neg h1, if_neg h2, if_pos h3]]
        rw [List.cons_append, List.cons_append, List.cons_append, List.nil_append]
        have hone : utf8DecodeOne (0xE0 + c.toNat / 0x1000)
            ((0x80 + c.toNat / 0x40 % 0x40) :: (0x80 + c.toNat % 0x40) :: rest)
            = some (c, 2) := by
          simp only [utf8DecodeOne]
          rw [if_neg (by omega), if_neg (by omega), if_neg (by omega), if_pos (by omega)]
          rw [if_pos (show (isCont (0x80 + c.toNat / 0x40 % 0x40) = true ∧
              isCont (0x80 + c.toNat % 0x40) = true) by
            constructor <;> (simp only [isCont, decide_eq_true_eq]; omega))]
          rw [if_neg (by omega), if_neg (by omega)]
          rw [show (0xE0 + c.toNat / 0x1000 - 0xE0) * 0x1000 +
                (0x80 + c.toNat / 0x40 % 0x40 - 0x80) * 0x40 + (0x80 + c.toNat % 0x40 - 0x80)
              = c.toNat by omega, Char.ofNat_toNat]
        rw [utf8Decode_cons, hone]
        simp only [List.drop_succ_cons, List.drop_zero]
      · rw [show utf8EncodeChar c
            = [0xF0 + c.toNat / 0x40000, 0x80 + c.toNat / 0x1000 % 0x40,
               0x80 + c.toNat / 0x40 % 0x40, 0x80 + c.toNat % 0x40] by
          simp only [utf8EncodeChar]
          rw [if_neg h1, if_neg h2, if_neg h3]]
        rw [List.cons_append, List.cons_append, List.cons_append, List.cons_append,
          List.nil_append]
        have hone : utf8DecodeOne (0xF0 + c.toNat / 0x40000)
            ((0x80 + c.toNat / 0x1000 % 0x40) :: (0x80 + c.toNat / 0x40 % 0x40) ::
              (0x80 + c.toNat % 0x40) :: rest)
            = some (c, 3) := by
          simp only [utf8DecodeOne]
          rw [if_neg (by omega), if_neg (by omega), if_neg (by omega), if_neg (by omega),
            if_pos (by omega)]
          rw [if_pos (show (isCont (0x80 + c.toNat / 0x1000 % 0x40) = true ∧
              isCont (0x80 + c.toNat / 0x40 % 0x40) = true ∧
              isCont (0x80 + c.toNat % 0x40) = true) by
            refine ⟨?_, ?_, ?_⟩ <;> (simp only [isCont, decide_eq_true_eq]; omega))]
          rw [if_neg (by omega), if_neg (by omega)]
          rw [show (0xF0 + c.toNat / 0x40000 - 0xF0) * 0x40000 +
                (0x80 + c.toNat / 0x1000 % 0x40 - 0x80) * 0x1000 +
                (0x80 + c.toNat / 0x40 % 0x40 - 0x80) * 0x40 + (0x80 + c.toNat % 0x40 - 0x80)
              = c.toNat by omega, Char.ofNat_toNat]
        rw [utf8Decode_cons, hone]
        simp only [List.drop_succ_cons, List.drop_zero]

/-- The UTF-8 codec round-trips on scalar sequences. -/
theorem utf8_roundtrip (s : List Char) : utf8Decode (utf8Encode s) = some s := by
  induction s with
  | nil => simp [utf8Encode, utf8Decode]
  | cons c cs ih =>
      rw [show utf8Encode (c :: cs) = utf8EncodeChar c ++ utf8Encode cs by
        simp [utf8Encode]]
      rw [utf8Decode_encodeChar, ih]
      rfl

/-! ## Decimal printing round-trip -/

theorem natDigits_ne_nil (n : Nat) : natDigits n ≠ [] := by
  rw [natDigits]
  split <;> simp

theorem natDigits_all_digits (n : Nat) : ∀ c ∈ natDigits n, c.isDigit = true := by
  induction n using natDigits.induct with
  | case1 n h =>
      rw [natDigits, dif_pos h]
      intro c hc
      simp only [List.mem_singleton] at hc
      subst hc
      simp only [digitChar10, Char.isDigit]
      interval_cases n <;> decide
  | case2 n h ih =>
      rw [natDigits, dif_neg h]
      intro c hc
      rcases List.mem_append.mp hc with h1 | h1
      · exact ih c h1
      · simp only [List.mem_singleton] at h1
        subst h1
        simp only [digitChar10, Char.isDigit]
        have : n % 10 < 10 := Nat.mod_lt _ (by omega)
        interval_cases h2 : n % 10 <;> decide

theorem natDigits_head_zero (n : Nat) : ∀ ds, natDigits n = '0' :: ds → n = 0 ∧ ds = [] := by
  induction n using natDigits.induct with
  | case1 n hlt =>
      intro ds h
      rw [natDigits, dif_pos hlt] at h
      have h0 : digitChar10 n = '0' := by
        injection h with h1 _
      have hn : n = 0 := by
        by_contra hne
        interval_cases n <;> simp_all [digitChar10]
      injection h with _ h2
      exact ⟨hn, h2.symm⟩
  | case2 n hlt ih =>
      intro ds h
      rw [natDigits, dif_neg hlt] at h
      match hd : natDigits (n / 10) with
      | [] => exact absurd hd (natDigits_ne_nil _)
      | c :: cs =>
          rw [hd] at h
          simp only [List.cons_append, List.cons.injEq] at h
          obtain ⟨rfl, h2⟩ := h
          obtain ⟨hn, -⟩ := ih cs hd
          omega

theorem digitsVal_append_singleton (xs : List Char) (c : Char) :
    digitsVal (xs ++ [c]) = digitsVal xs * 10 + (c.toNat - 48) := by
  simp [digitsVal, List.foldl_append]

theorem digitsVal_natDigits (n : Nat) : digitsVal (natDigits n) = n := by
  induction n using natDigits.induct with
  | case1 n h =>
      rw [natDigits, dif_pos h]
      simp only [digitsVal, List.foldl_cons, List.foldl_nil, digitChar10]
      have : (Char.ofNat (48 + n)).toNat = 48 + n := by
        interval_cases n <;> decide
      omega
  | case2 n h ih =>
      rw [natDigits, dif_neg h]
      have hm : n % 10 < 10 := Nat.mod_lt _ (by omega)
      have hc : (digitChar10 (n % 10)).toNat = 48 + n % 10 := by
        simp only [digitChar10]
        interval_cases hx : n % 10 <;> decide
      rw [digitsVal_append_singleton, ih, hc]
      omega

theorem spanDigits_append (ds rest : List Char)
    (hds : ∀ c ∈ ds, c.isDigit = true)
    (hrest : ∀ c, rest.head? = some c → c.isDigit = false) :
    spanDigits (ds ++ rest) = (ds, rest) := by
  simp only [spanDigits, Prod.mk.injEq]
  constructor
  · induction ds with
    | nil =>
        simp only [List.nil_append]
        cases rest with
        | nil => simp
        | cons c cs =>
            rw [List.takeWhile_cons, hrest c rfl]
            rfl
    | cons d ds ih =>
        rw [List.cons_append, List.takeWhile_cons, if_pos (hds d (by simp))]
        rw [ih (fun c hc => hds c (by simp [hc]))]
  · induction ds with
    | nil =>
        simp only [List.nil_append]
        cases rest with
        | nil => simp
        | cons c cs =>
            rw [List.dropWhile_cons, hrest c rfl]
            rfl
    | cons d ds ih =>
        rw [List.cons_append, List.dropWhile_cons, if_pos (hds d (by simp))]
        exact ih (fun c hc => hds c (by simp [hc]))

theorem parseNumber_natDigits (n : Nat) (rest : List Char)
    (hrest : ∀ c, rest.head? = some c →
      c.isDigit = false ∧ c ≠ '.' ∧ c ≠ 'e' ∧ c ≠ 'E') :
    parseNumber (natDigits n ++ rest) = some ((n : ℚ), rest) := by
  obtain ⟨d, ds, hds⟩ : ∃ d ds, natDigits n = d :: ds := by
    cases hnd : natDigits n with
    | nil => exact absurd hnd (natDigits_ne_nil n)
    | cons d ds => exact ⟨d, ds, rfl⟩
  have hddig : d.isDigit = true := natDigits_all_digits n d (by rw [hds]; simp)
  have hdne : (natDigits n ++ rest).head? ≠ some '-' := by
    rw [hds]
    intro h
    have h2 : d = '-' := by simpa using h
    rw [h2] at hddig
    simp [Char.isDigit] at hddig
  have hsign : parseSign (natDigits n ++ rest) = (false, natDigits n ++ rest) := by
    rw [parseSign, if_neg hdne]
  have hspan : spanDigits (natDigits n ++ rest) = (natDigits n, rest) :=
    spanDigits_append _ _ (natDigits_all_digits n)
      (fun c hc => (hrest c hc).1)
  have hint : parseIntPart (natDigits n ++ rest) = some (n, rest) := by
    rw [parseIntPart, hspan, hds]
    show (if d = '0' ∧ ds ≠ [] then none else some (digitsVal (d :: ds), rest))
      = some (n, rest)
    have hlz : ¬ (d = '0' ∧ ds ≠ []) := by
      rintro ⟨rfl, hne⟩
      obtain ⟨-, h2⟩ := natDigits_head_zero n ds hds
      exact hne h2
    rw [if_neg hlz, ← hds, digitsVal_natDigits]
  have hdot : ¬ rest.head? = some '.' := fun h => absurd rfl (hrest '.' h).2.1
  have hfrac : parseFrac rest = some (0, rest) := by
    rw [parseFrac, if_neg hdot]
  have heE : ¬ (rest.head? = some 'e' ∨ rest.head? = some 'E') := by
    rintro (h | h)
    · exact absurd rfl (hrest 'e' h).2.2.1
    · exact absurd rfl (hrest 'E' h).2.2.2
  have hexp : parseExp rest = some (0, rest) := by
    rw [parseExp, if_neg heE]
  rw [parseNumber, hsign]
  simp only [hint, hfrac, hexp]
  simp

theorem parseNumber_intToDecimal (t : Int) (rest : List Char)
    (hrest : ∀ c, rest.head? = some c →
      c.isDigit = false ∧ c ≠ '.' ∧ c ≠ 'e' ∧ c ≠ 'E') :
    parseNumber (intToDecimal t ++ rest) = some ((t : ℚ), rest) := by
  by_cases ht : t < 0
  · rw [intToDecimal, if_pos ht, List.cons_append]
    have hsign : parseSign ('-' :: (natDigits (-t).toNat ++ rest))
        = (true, natDigits (-t).toNat ++ rest) := by
      rw [parseSign]
      simp
    have hspan : spanDigits (natDigits (-t).toNat ++ rest)
        = (natDigits (-t).toNat, rest) :=
      spanDigits_append _ _ (natDigits_all_digits _)
        (fun c hc => (hrest c hc).1)
    obtain ⟨d, ds, hds⟩ : ∃ d ds, natDigits (-t).toNat = d :: ds := by
      cases hnd : natDigits (-t).toNat with
      | nil => exact absurd hnd (natDigits_ne_nil _)
      | cons d ds => exact ⟨d, ds, rfl⟩
    have hint : parseIntPart (natDigits (-t).toNat ++ rest)
        = some ((-t).toNat, rest) := by
      rw [parseIntPart, hspan, hds]
      show (if d = '0' ∧ ds ≠ [] then none else some (digitsVal (d :: ds), rest))
        = some ((-t).toNat, rest)
      have hlz : ¬ (d = '0' ∧ ds ≠ []) := by
        rintro ⟨rfl, hne⟩
        obtain ⟨-, h2⟩ := natDigits_head_zero _ ds hds
        exact hne h2
      rw [if_neg hlz, ← hds, digitsVal_natDigits]
    have hdot : ¬ rest.head? = some '.' := fun h => absurd rfl (hrest '.' h).2.1
    have hfrac : parseFrac rest = some (0, rest) := by
      rw [parseFrac, if_neg hdot]
    have heE : ¬ (rest.head? = some 'e' ∨ rest.head? = some 'E') := by
      rintro (h | h)
      · exact absurd rfl (hrest 'e' h).2.2.1
      · exact absurd rfl (hrest 'E' h).2.2.2
    have hexp : parseExp rest = some (0, rest) := by
      rw [parseExp, if_neg heE]
    rw [parseNumber, hsign]
    simp only [hint, hfrac, hexp]
    simp only [zpow_zero, add_zero, mul_one, if_pos, Option.some.injEq, Prod.mk.injEq,
      and_true]
    have hq : (((-t).toNat : ℤ) : ℚ) = ((-t : ℤ) : ℚ) := by
      rw [Int.toNat_of_nonneg (by omega : (0 : Int) ≤ -t)]
    push_cast at hq ⊢
    linarith
  · rw [intToDecimal, if_neg ht]
    rw [parseNumber_natDigits t.toNat rest hrest]
    congr 2
    exact_mod_cast congrArg (fun z : Int => (z : ℚ))
      (Int.toNat_of_nonneg (by omega : (0 : Int) ≤ t))

/-! ## JSON string escaping round-trip -/

theorem hexVal_hexChar : ∀ m, m < 16 → hexVal (hexChar m) = some m := by
  decide

theorem psb_quote (r : List Char) : parseStringBody ('"' :: r) = some ([], r) := by
  rw [parseStringBody.eq_def]
  simp

theorem psb_plain (c : Char) (r : List Char) (h1 : c ≠ '"') (h2 : c ≠ '\\')
    (h3 : ¬ c.toNat < 0x20) :
    parseStringBody (c :: r) =
      match parseStringBody r with
      | some (s, rest) => some (c :: s, rest)
      | none => none := by
  rw [parseStringBody.eq_def]
  simp only []
  rw [if_neg h1, if_neg h2, if_neg h3]

theorem psb_esc_simple (e : Char) (r : List Char)
    (he : e = '"' ∨ e = '\\' ∨ e = '/') :
    parseStringBody ('\\' :: e :: r) =
      match parseStringBody r with
      | some (s, rest) => some (e :: s, rest)
      | none => none := by
  rw [parseStringBody.eq_def]
  simp only []
  rw [if_neg (by decide), if_pos (by trivial)]
  rw [if_pos he]

theorem psb_esc_named (e : Char) (r : List Char)
    (hne : ¬ (e = '"' ∨ e = '\\' ∨ e = '/'))
    (he : e = 'b' ∨ e = 't' ∨ e = 'n' ∨ e = 'f' ∨ e = 'r') :
    parseStringBody ('\\' :: e :: r) =
      match parseStringBody r with
      | some (s, rest) =>
          some ((if e = 'b' then Char.ofNat 8
                 else if e = 't' then Char.ofNat 9
                 else if e = 'n' then Char.ofNat 10
                 else if e = 'f' then Char.ofNat 12
                 else Char.ofNat 13) :: s, rest)
      | none => none := by
  rw [parseStringBody.eq_def]
  simp only []
  rw [if_neg (by decide), if_pos (by trivial)]
  rw [if_neg hne, if_pos he]

theorem psb_esc_u (h1 h2 : Char) (v1 v2 : Nat) (r : List Char)
    (hv1 : hexVal h1 = some v1) (hv2 : hexVal h2 = some v2)
    (hb1 : v1 < 16) (hb2 : v2 < 16) :
    parseStringBody ('\\' :: 'u' :: '0' :: '0' :: h1 :: h2 :: r) =
      match parseStringBody r with
      | some (s, rest) => some (Char.ofNat (v1 * 16 + v2) :: s, rest)
      | none => none := by
  rw [parseStringBody.eq_def]
  simp only []
  rw [if_neg (by decide), if_pos (by trivial)]
  rw [if_neg (by decide), if_neg (by decide), if_pos (by trivial)]
  have hx : hex4 ('0' :: '0' :: h1 :: h2 :: r) = some (v1 * 16 + v2) := by
    simp only [hex4, hv1, hv2, show hexVal '0' = some 0 by decide]
    exact congrArg some (by omega)
  rw [hx]
  simp only []
  rw [if_neg (by omega), if_neg (by omega)]
  simp [List.drop]

theorem parseStringBody_escaped (s rest : List Char) :
    parseStringBody ((s.map escapeChar).flatten ++ '"' :: rest) = some (s, rest) := by
  induction s with
  | nil =>
      simp only [List.map_nil, List.flatten_nil, List.nil_append]
      exact psb_quote rest
  | cons c cs ih =>
      rw [show ((c :: cs).map escapeChar).flatten
            = escapeChar c ++ (cs.map escapeChar).flatten by simp,
          List.append_assoc]
      by_cases hq : c = '"'
      · subst hq
        rw [show escapeChar '"' = ['\\', '"'] from rfl]
        rw [List.cons_append, List.cons_append, List.nil_append]
        rw [psb_esc_simple '"' _ (Or.inl rfl), ih]
      · by_cases hbs : c = '\\'
        · subst hbs
          rw [show escapeChar '\\' = ['\\', '\\'] from rfl]
          rw [List.cons_append, List.cons_append, List.nil_append]
          rw [psb_esc_simple '\\' _ (Or.inr (Or.inl rfl)), ih]
        · by_cases hge : c.toNat ≥ 0x20
          · rw [show escapeChar c = [c] by
              simp only [escapeChar]
              rw [if_neg hq, if_neg hbs, if_pos hge]]
            rw [List.cons_append, List.nil_append]
            rw [psb_plain c _ hq hbs (by omega), ih]
          · by_cases h8 : c.toNat = 8
            · rw [show escapeChar c = ['\\', 'b'] by
                simp only [escapeChar]
                rw [if_neg hq, if_neg hbs, if_neg (by omega), if_pos h8]]
              rw [List.cons_append, List.cons_append, List.nil_append]
              rw [psb_esc_named 'b' _ (by decide) (Or.inl rfl), ih]
              have hc : Char.ofNat 8 = c := by rw [← h8, Char.ofNat_toNat]
              rw [hc]
              simp
            · by_cases h9 : c.toNat = 9
              · rw [show escapeChar c = ['\\', 't'] by
                  simp only [escapeChar]
                  rw [if_neg hq, if_neg hbs, if_neg (by omega), if_neg (by omega),
                    if_pos h9]]
                rw [List.cons_append, List.cons_append, List.nil_append]
                rw [psb_esc_named 't' _ (by decide) (Or.inr (Or.inl rfl)), ih]
                have hc : Char.ofNat 9 = c := by rw [← h9, Char.ofNat_toNat]
                rw [hc]
                simp
              · by_cases h10 : c.toNat = 10
                · rw [show escapeChar c = ['\\', 'n'] by
                    simp only [escapeChar]
                    rw [if_neg hq, if_neg hbs, if_neg (by omega), if_neg (by omega),
                      if_neg (by omega), if_pos h10]]
                  rw [List.cons_append, List.cons_append, List.nil_append]
                  rw [psb_esc_named 'n' _ (by decide) (Or.inr (Or.inr (Or.inl rfl))), ih]
                  have hc : Char.ofNat 10 = c := by rw [← h10, Char.ofNat_toNat]
                  rw [hc]
                  simp
                · by_cases h12 : c.toNat = 12
                  · rw [show escapeChar c = ['\\', 'f'] by
                      simp only [escapeChar]
                      rw [if_neg hq, if_neg hbs, if_neg (by omega), if_neg (by omega),
                        if_neg (by omega), if_neg (by omega), if_pos h12]]
                    rw [List.cons_append, List.cons_append, List.nil_append]
                    rw [psb_esc_named 'f' _ (by decide)
                      (Or.inr (Or.inr (Or.inr (Or.inl rfl)))), ih]
                    have hc : Char.ofNat 12 = c := by rw [← h12, Char.ofNat_toNat]
                    rw [hc]
                    simp
                  · by_cases h13 : c.toNat = 13
                    · rw [show escapeChar c = ['\\', 'r'] by
                        simp only [escapeChar]
                        rw [if_neg hq, if_neg hbs, if_neg (by omega), if_neg (by omega),
                          if_neg (by omega), if_neg (by omega), if_neg (by omega),
                          if_pos h13]]
                      rw [List.cons_append, List.cons_append, List.nil_append]
                      rw [psb_esc_named 'r' _ (by decide)
                        (Or.inr (Or.inr (Or.inr (Or.inr rfl)))), ih]
                      have hc : Char.ofNat 13 = c := by rw [← h13, Char.ofNat_toNat]
                      rw [hc]
                      simp
                    · rw [show escapeChar c
                          = ['\\', 'u', '0', '0', hexChar (c.toNat / 16),
                             hexChar (c.toNat % 16)] by
                        simp only [escapeChar]
                        rw [if_neg hq, if_neg hbs, if_neg (by omega), if_neg (by omega),
                          if_neg (by omega), if_neg (by omega), if_neg (by omega),
                          if_neg (by omega)]]
                      rw [List.cons_append, List.cons_append, List.cons_append,
                        List.cons_append, List.cons_append, List.cons_append,
                        List.nil_append]
                      rw [psb_esc_u (hexChar (c.toNat / 16)) (hexChar (c.toNat % 16))
                        (c.toNat / 16) (c.toNat % 16) _
                        (hexVal_hexChar _ (by omega)) (hexVal_hexChar _ (by omega))
                        (by omega) (by omega), ih]
                      have hc : Char.ofNat (c.toNat / 16 * 16 + c.toNat % 16) = c := by
                        rw [show c.toNat / 16 * 16 + c.toNat % 16 = c.toNat by omega, Char.ofNat_toNat]
                      rw [hc]

/-! ## JSON parser steps and cursor-object inversion -/

theorem skipWs_cons (c : Char) (l : List Char) (h : isJsonWs c = false) :
    skipWs (c :: l) = c :: l := by
  simp [skipWs, List.dropWhile_cons, h]

theorem parseValue_obj (f : Nat) (r : List Char) :
    parseValue (f + 1) ('{' :: r) =
      (match skipWs r with
       | '}' :: rest => some (.obj [], rest)
       | r2 => parseFields f r2) := by
  rw [parseValue.eq_def]
  simp only []
  rw [skipWs_cons _ _ (by decide)]
  simp only []
  rw [if_neg (by decide), if_neg (by decide), if_neg (by decide), if_neg (by decide),
    if_neg (by decide), if_pos (by trivial)]

theorem parseValue_obj_quote (f : Nat) (r : List Char) :
    parseValue (f + 1) ('{' :: '"' :: r) = parseFields f ('"' :: r) := by
  rw [parseValue_obj, skipWs_cons _ _ (by decide)]
  rfl

theorem parseValue_str (f : Nat) (r : List Char) :
    parseValue (f + 1) ('"' :: r) =
      (match parseStringBody r with
       | some (s, rest) => some (.str s, rest)
       | none => none) := by
  rw [parseValue.eq_def]
  simp only []
  rw [skipWs_cons _ _ (by decide)]
  simp only []
  rw [if_neg (by decide), if_neg (by decide), if_neg (by decide), if_pos (by trivial)]

theorem parseValue_num (f : Nat) (c : Char) (r : List Char)
    (hd : c.isDigit = true ∨ c = '-') :
    parseValue (f + 1) (c :: r) =
      (match parseNumber (c :: r) with
       | some (q, rest) => some (.num q, rest)
       | none => none) := by
  have hne : ∀ x ∈ (['n', 't', 'f', '"', '[', '{'] : List Char), ¬ c = x := by
    intro x hx h
    subst h
    rcases hd with h | h
    · fin_cases hx <;> simp_all [Char.isDigit]
    · fin_cases hx <;> simp_all
  have hws : isJsonWs c = false := by
    cases hj : isJsonWs c
    · rfl
    · exfalso
      have hc : c = ' ' ∨ c = '\t' ∨ c = '\n' ∨ c = '\r' := by
        simpa [isJsonWs] using hj
      rcases hc with rfl | rfl | rfl | rfl <;> rcases hd with h | h <;>
        simp_all [Char.isDigit]
  rw [parseValue.eq_def]
  simp only []
  rw [skipWs_cons _ _ hws]
  simp only []
  rw [if_neg (hne 'n' (by simp)), if_neg (hne 't' (by simp)),
    if_neg (hne 'f' (by simp)), if_neg (hne '"' (by simp)),
    if_neg (hne '[' (by simp)), if_neg (hne '{' (by simp))]

theorem parseFields_cons (f : Nat) (r : List Char) :
    parseFields (f + 1) ('"' :: r) =
      (match parseStringBody r with
       | some (k, rest) =>
           match skipWs rest with
           | ':' :: r2 =>
               match parseValue f r2 with
               | some (v, rest2) =>
                   match skipWs rest2 with
                   | ',' :: r3 =>
                       match parseFields f (skipWs r3) with
                       | some (.obj fs, rest3) => some (.obj ((k, v) :: fs), rest3)
                       | _ => none
                   | '}' :: r3 => some (.obj [(k, v)], r3)
                   | _ => none
               | none => none
           | _ => none
       | none => none) := by
  rw [parseFields.eq_def]
  simp only []

theorem intToDecimal_shape (t : Int) :
    ∃ d ds, intToDecimal t = d :: ds ∧ (d.isDigit = true ∨ d = '-') := by
  rw [intToDecimal]
  split
  · exact ⟨'-', natDigits (-t).toNat, rfl, Or.inr rfl⟩
  · cases hnd : natDigits t.toNat with
    | nil => exact absurd hnd (natDigits_ne_nil _)
    | cons d ds =>
        refine ⟨d, ds, rfl, Or.inl ?_⟩
        exact natDigits_all_digits _ d (by rw [hnd]; simp)

theorem psb_key_createdAt (rest : List Char) :
    parseStringBody ("createdAt".data ++ '"' :: rest)
      = some ("createdAt".data, rest) := by
  rw [show ("createdAt".data ++ '"' :: rest)
      = (("createdAt".data.map escapeChar).flatten ++ '"' :: rest) from rfl]
  exact parseStringBody_escaped _ _

theorem psb_key_id (rest : List Char) :
    parseStringBody ("id".data ++ '"' :: rest) = some ("id".data, rest) := by
  rw [show ("id".data ++ '"' :: rest)
      = (("id".data.map escapeChar).flatten ++ '"' :: rest) from rfl]
  exact parseStringBody_escaped _ _

theorem parseValue_quoted (g : Nat) (id tail : List Char) :
    parseValue (g + 1) (quoteString id ++ tail) = some (.str id, tail) := by
  rw [show quoteString id ++ tail
      = '"' :: ((id.map escapeChar).flatten ++ ('"' :: tail)) by
    simp [quoteString]]
  rw [parseValue_str, parseStringBody_escaped]

theorem parseValue_intToDecimal (g : Nat) (t : Int) (rest : List Char)
    (hrest : ∀ c, rest.head? = some c →
      c.isDigit = false ∧ c ≠ '.' ∧ c ≠ 'e' ∧ c ≠ 'E') :
    parseValue (g + 1) (intToDecimal t ++ rest) = some (.num (t : ℚ), rest) := by
  obtain ⟨d, ds, hdds, hd⟩ := intToDecimal_shape t
  rw [hdds, List.cons_append, parseValue_num g d _ hd, ← List.cons_append, ← hdds,
    parseNumber_intToDecimal t rest hrest]

theorem parseFields_idField (g : Nat) (id : List Char) :
    parseFields (g + 2) ('"' :: ("id".data ++ ('"' :: ':' :: (quoteString id ++ ['}']))))
      = some (.obj [("id".data, .str id)], []) := by
  rw [show g + 2 = (g + 1) + 1 by omega, parseFields_cons, psb_key_id]
  simp only []
  rw [skipWs_cons _ _ (by decide)]
  simp only []
  rw [parseValue_quoted g]
  simp only []
  rw [show skipWs ['}'] = ['}'] from rfl]
  rfl

theorem cursorJsonNum_shape (t : Int) (id : List Char) :
    cursorJsonNum t id
      = '{' :: '"' :: ("createdAt".data ++ ('"' :: ':' ::
          (intToDecimal t ++ (',' :: '"' :: ("id".data ++ ('"' :: ':' ::
            (quoteString id ++ ['}']))))))) := by
  rw [cursorJsonNum]
  simp only [List.append_assoc]
  rfl

theorem parseValue_cursorJsonNum (t : Int) (id : List Char) (f : Nat) :
    parseValue (f + 4) (cursorJsonNum t id)
      = some (.obj [("createdAt".data, .num (t : ℚ)), ("id".data, .str id)], []) := by
  rw [cursorJsonNum_shape, show f + 4 = (f + 3) + 1 by omega, parseValue_obj_quote,
    show f + 3 = (f + 2) + 1 by omega, parseFields_cons, psb_key_createdAt]
  simp only []
  rw [skipWs_cons _ _ (by decide)]
  simp only []
  rw [show f + 2 = (f + 1) + 1 by omega,
    parseValue_intToDecimal (f + 1) t _ ?hrest]
  case hrest =>
    intro c hc
    simp only [List.head?_cons, Option.some.injEq] at hc
    subst hc
    refine ⟨by decide, by decide, by decide, by decide⟩
  simp only []
  rw [skipWs_cons _ _ (by decide)]
  simp only []
  rw [skipWs_cons _ _ (by decide)]
  rw [show f + 2 = f + 2 from rfl, parseFields_idField f id]

theorem cursorJsonStr_shape (ca id : List Char) :
    cursorJsonStr ca id
      = '{' :: '"' :: ("createdAt".data ++ ('"' :: ':' ::
          (quoteString ca ++ (',' :: '"' :: ("id".data ++ ('"' :: ':' ::
            (quoteString id ++ ['}']))))))) := by
  rw [cursorJsonStr]
  simp only [List.append_assoc]
  rfl

theorem parseValue_cursorJsonStr (ca id : List Char) (f : Nat) :
    parseValue (f + 4) (cursorJsonStr ca id)
      = some (.obj [("createdAt".data, .str ca), ("id".data, .str id)], []) := by
  rw [cursorJsonStr_shape, show f + 4 = (f + 3) + 1 by omega, parseValue_obj_quote,
    show f + 3 = (f + 2) + 1 by omega, parseFields_cons, psb_key_createdAt]
  simp only []
  rw [skipWs_cons _ _ (by decide)]
  simp only []
  rw [show f + 2 = (f + 1) + 1 by omega, parseValue_quoted (f + 1)]
  simp only []
  rw [skipWs_cons _ _ (by decide)]
  simp only []
  rw [skipWs_cons _ _ (by decide)]
  rw [parseFields_idField f id]

/-! ## Cursor codec round-trips -/

theorem jsonParse_cursorJsonNum (t : Int) (id : List Char) :
    jsonParse (cursorJsonNum t id)
      = some (.obj [("createdAt".data, .num (t : ℚ)), ("id".data, .str id)]) := by
  rw [jsonParse, show 2 * (cursorJsonNum t id).length + 8
      = (2 * (cursorJsonNum t id).length + 4) + 4 by omega,
    parseValue_cursorJsonNum]
  simp [skipWs]

theorem jsonParse_cursorJsonStr (ca id : List Char) :
    jsonParse (cursorJsonStr ca id)
      = some (.obj [("createdAt".data, .str ca), ("id".data, .str id)]) := by
  rw [jsonParse, show 2 * (cursorJsonStr ca id).length + 8
      = (2 * (cursorJsonStr ca id).length + 4) + 4 by omega,
    parseValue_cursorJsonStr]
  simp [skipWs]

theorem utf8EncodeChar_ne_nil (c : Char) : utf8EncodeChar c ≠ [] := by
  simp only [utf8EncodeChar]
  split <;> simp_all
  split <;> simp_all
  split <;> simp_all

theorem utf8Encode_ne_nil (c : Char) (r : List Char) : utf8Encode (c :: r) ≠ [] := by
  cases hE : utf8EncodeChar c with
  | nil => exact absurd hE (utf8EncodeChar_ne_nil c)
  | cons b bs => simp [utf8Encode, hE]

theorem b64urlEncode_ne_nil (bs : List Nat) (h : bs ≠ []) : b64urlEncode bs ≠ [] := by
  match bs with
  | [] => exact absurd rfl h
  | [b1] => simp [b64urlEncode]
  | [b1, b2] => simp [b64urlEncode]
  | b1 :: b2 :: b3 :: rest => simp [b64urlEncode]

theorem makeCursorServer_ne_empty (t : Int) (id : String) :
    makeCursorServer t id ≠ "" := by
  intro h
  have hd := congrArg String.data h
  rw [show (makeCursorServer t id).data
      = b64urlEncode (utf8Encode (cursorJsonNum t id.data)) from rfl] at hd
  rw [show ("" : String).data = [] from rfl] at hd
  rw [cursorJsonNum_shape] at hd
  exact b64urlEncode_ne_nil _ (utf8Encode_ne_nil _ _) hd

theorem makeCursorStore_ne_empty (ca id : String) :
    makeCursorStore ca id ≠ "" := by
  intro h
  have hd := congrArg String.data h
  rw [show (makeCursorStore ca id).data
      = b64urlEncode (utf8Encode (cursorJsonStr ca.data id.data)) from rfl] at hd
  rw [show ("" : String).data = [] from rfl] at hd
  rw [cursorJsonStr_shape] at hd
  exact b64urlEncode_ne_nil _ (utf8Encode_ne_nil _ _) hd

theorem jGet_cursor_last {v w : JVal} :
    jGet [("createdAt".data, v), ("id".data, w)] "createdAt".data = some v ∧
    jGet [("createdAt".data, v), ("id".data, w)] "id".data = some w := by
  constructor
  · simp only [jGet, List.reverse_cons, List.reverse_nil, List.nil_append,
      List.cons_append]
    rw [List.find?_cons_of_neg _ (by simp), List.find?_cons_of_pos _ (by simp)]
    rfl
  · simp only [jGet, List.reverse_cons, List.reverse_nil, List.nil_append,
      List.cons_append]
    rw [List.find?_cons_of_pos _ (by simp)]
    rfl

/-- Round-trip of the flat-file (`server.js`) cursor codec. -/
theorem parseCursorServer_roundtrip (t : Int) (id : String) :
    parseCursorServer (some (makeCursorServer t id)) = some ⟨(t : ℚ), id⟩ := by
  rw [parseCursorServer]
  simp only []
  rw [if_neg (makeCursorServer_ne_empty t id)]
  rw [show (makeCursorServer t id).data
      = b64urlEncode (utf8Encode (cursorJsonNum t id.data)) from rfl]
  rw [b64url_roundtrip _ (utf8Encode_lt_256 _)]
  simp only []
  rw [utf8_roundtrip]
  simp only []
  rw [jsonParse_cursorJsonNum]
  simp only []
  rw [jGet_cursor_last.1, jGet_cursor_last.2]

/-- Round-trip of the store (`_petFeedStore.js`) cursor codec, for a
timestamp string its validation accepts. -/
theorem parseCursorStore_roundtrip (ca id : String)
    (h : isoToMs ca ≠ none) :
    parseCursorStore (some (makeCursorStore ca id)) = some ⟨ca, id⟩ := by
  rw [parseCursorStore]
  simp only []
  rw [if_neg (makeCursorStore_ne_empty ca id)]
  rw [show (makeCursorStore ca id).data
      = b64urlEncode (utf8Encode (cursorJsonStr ca.data id.data)) from rfl]
  rw [b64url_roundtrip _ (utf8Encode_lt_256 _)]
  simp only []
  rw [utf8_roundtrip]
  simp only []
  rw [jsonParse_cursorJsonStr]
  simp only []
  rw [jGet_cursor_last.1, jGet_cursor_last.2]
  simp only []
  rw [if_neg (by simpa using h)]

/-! ## Limit clamping -/

theorem serverLimit_range (o : Option JSNum) :
    ∃ q : ℚ, serverLimit o = .num q ∧ 1 ≤ q ∧ q ≤ 50 := by
  rw [serverLimit]
  match o with
  | none => exact ⟨20, rfl, by norm_num, by norm_num⟩
  | some .nan => exact ⟨20, rfl, by norm_num, by norm_num⟩
  | some .inf => exact ⟨20, rfl, by norm_num, by norm_num⟩
  | some .ninf => exact ⟨20, rfl, by norm_num, by norm_num⟩
  | some (.num q) =>
      refine ⟨max 1 (min 50 q), ?_, le_max_left _ _, ?_⟩
      · rfl
      · rw [max_le_iff]
        exact ⟨by norm_num, le_trans (min_le_left _ _) (by norm_num)⟩

theorem storeSafeLimit_range (o : Option JSNum) :
    ∃ q : ℚ, storeSafeLimit o = .num q ∧ 1 ≤ q ∧ q ≤ 50 := by
  rw [storeSafeLimit]
  match o with
  | none => exact ⟨20, rfl, by norm_num, by norm_num⟩
  | some .nan => exact ⟨20, rfl, by norm_num, by norm_num⟩
  | some .inf => exact ⟨50, rfl, by norm_num, by norm_num⟩
  | some .ninf => exact ⟨1, rfl, by norm_num, by norm_num⟩
  | some (.num q) =>
      by_cases h0 : q = 0
      · subst h0
        exact ⟨20, rfl, by norm_num, by norm_num⟩
      · refine ⟨max 1 (min 50 q), ?_, le_max_left _ _, ?_⟩
        · simp only [JSNum.orDefault, Option.getD, if_neg h0]
          rfl
        · rw [max_le_iff]
          exact ⟨by norm_num, le_trans (min_le_left _ _) (by norm_num)⟩

theorem jsTrunc_toNat_le (q : ℚ) (h : 0 ≤ q) : ((jsTrunc q).toNat : ℚ) ≤ q := by
  rw [jsTrunc, if_pos h]
  have h1 : (0 : Int) ≤ q.floor := by
    rw [Rat.le_floor]
    exact_mod_cast h
  rw [show ((q.floor.toNat : Nat) : ℚ) = ((q.floor.toNat : ℤ) : ℚ) by push_cast; ring,
    Int.toNat_of_nonneg h1]
  exact Rat.le_floor.mp (le_refl _)

theorem jsSlice_num_length (q : ℚ) (hq : 0 ≤ q) (l : List α) :
    ((jsSlice (.num q) l).length : ℚ) ≤ q := by
  rw [jsSlice, if_pos hq]
  have hlen : (l.take (jsTrunc q).toNat).length ≤ (jsTrunc q).toNat := by
    rw [List.length_take]
    exact min_le_left _ _
  exact le_trans (by exact_mod_cast hlen) (jsTrunc_toNat_le q hq)

theorem limitCount_le (q : ℚ) (hq : 0 ≤ q) : ((limitCount (.num q)) : ℚ) ≤ q := by
  rw [limitCount]
  exact jsTrunc_toNat_le q hq

/-! ## Trimming -/

theorem dropWhile_head_false (p : Char → Bool) (l : List Char) :
    ∀ c cs, l.dropWhile p = c :: cs → p c = false := by
  induction l with
  | nil => intro c cs h; simp at h
  | cons a as ih =>
      intro c cs h
      rw [List.dropWhile_cons] at h
      by_cases hp : p a
      · rw [if_pos hp] at h
        exact ih c cs h
      · rw [if_neg hp] at h
        injection h with h1 _
        subst h1
        simpa using hp

theorem jsTrimList_prefix (l : List Char) :
    jsTrimList l <+: l.dropWhile Char.isWhitespace := by
  rw [jsTrimList]
  rw [← List.reverse_suffix]
  simp only [List.reverse_reverse]
  exact List.dropWhile_suffix _

theorem jsTrimList_head (l : List Char) (c : Char) (cs : List Char)
    (h : jsTrimList l = c :: cs) : c.isWhitespace = false := by
  have hp := jsTrimList_prefix l
  rw [h] at hp
  obtain ⟨t, ht⟩ := hp
  exact dropWhile_head_false _ l c _ ht.symm

theorem jsTrimList_all_ws (l : List Char) (h : ∀ c ∈ l, c.isWhitespace = true) :
    jsTrimList l = [] := by
  rw [jsTrimList, List.dropWhile_eq_nil_iff.mpr h]
  simp

theorem safeText_head_not_ws (v : Option String) (n : Nat) (c : Char)
    (cs : List Char) (h : (safeText v n).data = c :: cs) :
    c.isWhitespace = false := by
  match v with
  | none => simp [safeText] at h
  | some s =>
      rw [safeText] at h
      by_cases hn : n = 0
      · rw [if_pos hn] at h
        exact jsTrimList_head s.data c cs h
      · rw [if_neg hn] at h
        have h2 : (jsTrimList s.data).take n = c :: cs := h
        match ht : jsTrimList s.data with
        | [] => rw [ht] at h2; simp at h2
        | d :: ds =>
            rw [ht] at h2
            match n with
            | 0 => exact absurd rfl hn
            | m + 1 =>
                rw [List.take_succ_cons] at h2
                injection h2 with h3 _
                rw [← h3]
                exact jsTrimList_head s.data d ds ht

theorem safeText_length_le (v : Option String) (n : Nat) (hn : n ≠ 0) :
    (safeText v n).length ≤ n := by
  match v with
  | none => simp [safeText]
  | some s =>
      rw [safeText, if_neg hn]
      show ((jsTrimList s.data).take n).length ≤ n
      rw [List.length_take]
      exact min_le_left _ _

/-! ## Deletion helpers -/

theorem find?_eraseP_none (posts : List FilePost) (id : String)
    (hnd : (posts.map FilePost.id).Nodup) :
    (posts.eraseP (fun p => decide (p.id = id))).find?
      (fun p => decide (p.id = id)) = none := by
  induction posts with
  | nil => simp
  | cons a as ih =>
      simp only [List.map_cons, List.nodup_cons] at hnd
      obtain ⟨ha, hnd2⟩ := hnd
      by_cases hp : a.id = id
      · rw [List.eraseP_cons_of_pos (by simp [hp])]
        refine List.find?_eq_none.mpr ?_
        intro x hx
        simp only [decide_eq_true_eq]
        intro hxid
        exact ha (by
          rw [List.mem_map]
          exact ⟨x, hx, by rw [hxid, hp]⟩)
      · rw [List.eraseP_cons_of_neg (by simp [hp])]
        rw [List.find?_cons_of_neg _ (by simp [hp])]
        exact ih hnd2

theorem removeStore_twice (posts : List FilePost) (id : String)
    (hnd : (posts.map FilePost.id).Nodup) :
    (removeStore (removeStore posts id).2 id).1 = none := by
  cases hf : posts.find? (fun p => decide (p.id = id)) with
  | none =>
      rw [show (removeStore posts id).2 = posts by rw [removeStore, hf]]
      rw [removeStore, hf]
  | some p =>
      rw [show (removeStore posts id).2
          = posts.eraseP (fun p => decide (p.id = id)) by rw [removeStore, hf]]
      rw [removeStore, find?_eraseP_none posts id hnd]

/-! # Claim theorems -/

/-- C4: for every valid `(createdAt, id)` pair — any integral millisecond
timestamp for the flat-file codec, and any `Date.parse`-accepted ISO string
for the store codec — decoding the encoded cursor returns exactly that
pair: `parseCursor (makeCursor {createdAt, id}) = {createdAt, id}`. -/
theorem C4_cursor_roundtrip :
    (∀ (createdAt : Int) (id : String),
        parseCursorServer (some (makeCursorServer createdAt id))
          = some ⟨(createdAt : ℚ), id⟩) ∧
    (∀ (createdAt id : String), isoToMs createdAt ≠ none →
        parseCursorStore (some (makeCursorStore createdAt id))
          = some ⟨createdAt, id⟩) :=
  ⟨parseCursorServer_roundtrip, parseCursorStore_roundtrip⟩

theorem C4_cursor_roundtrip_witness :
    isoToMs "2024-01-02T03:04:05.678Z" ≠ none ∧
    parseCursorServer (some (makeCursorServer 1700000000000 "abc-123"))
      = some ⟨(1700000000000 : ℚ), "abc-123"⟩ ∧
    parseCursorStore
        (some (makeCursorStore "2024-01-02T03:04:05.678Z" "p1"))
      = some ⟨"2024-01-02T03:04:05.678Z", "p1"⟩ :=
  ⟨by decide, C4_cursor_roundtrip.1 1700000000000 "abc-123",
   C4_cursor_roundtrip.2 "2024-01-02T03:04:05.678Z" "p1" (by decide)⟩

/-- C6: in both backends the effective limit always lies in `[1, 50]`, an
absent or non-numeric (`NaN`) limit yields 20, and the returned page never
exceeds the effective limit. -/
theorem C6_limit_clamping :
    (∀ o : Option JSNum,
        (∃ q : ℚ, serverLimit o = .num q ∧ 1 ≤ q ∧ q ≤ 50) ∧
        (∃ q : ℚ, storeSafeLimit o = .num q ∧ 1 ≤ q ∧ q ≤ 50)) ∧
    (serverLimit none = .num 20 ∧ storeSafeLimit none = .num 20 ∧
     serverLimit (some .nan) = .num 20 ∧ storeSafeLimit (some .nan) = .num 20) ∧
    (∀ (posts : List FilePost) (qry : ListQuery) (q : ℚ),
        serverLimit qry.limit = .num q →
        ((serverGetPosts posts qry).posts.length : ℚ) ≤ q) ∧
    (∀ (table : List SqlRow) (limit : Option JSNum)
        (sort qp cursor : Option String) (q : ℚ),
        storeSafeLimit limit = .num q →
        ((listPosts table limit sort qp cursor).length : ℚ) ≤ q) := by
  refine ⟨fun o => ⟨serverLimit_range o, storeSafeLimit_range o⟩,
    ⟨rfl, rfl, rfl, rfl⟩, ?_, ?_⟩
  · intro posts qry q hq
    obtain ⟨q2, hq2, h1, -⟩ := serverLimit_range qry.limit
    rw [hq] at hq2
    injection hq2 with hq3
    subst hq3
    rw [show (serverGetPosts posts qry).posts
        = jsSlice (serverLimit qry.limit)
            (serverCursorFilter (sortParam qry.sort) (parseCursorServer qry.cursor)
              (serverSort (sortParam qry.sort)
                (serverFilterQ (jsToLower (safeText qry.q 80)) posts))) from rfl, hq]
    exact jsSlice_num_length q (by linarith) _
  · intro table limit sort qp cursor q hq
    obtain ⟨q2, hq2, h1, -⟩ := storeSafeLimit_range limit
    rw [hq] at hq2
    injection hq2 with hq3
    subst hq3
    rw [listPosts]
    split
    · refine le_trans ?_ (limitCount_le q (by linarith))
      rw [hq]
      exact_mod_cast le_trans
        (le_of_eq (List.length_take _ _)) (min_le_left _ _)
    · refine le_trans ?_ (limitCount_le q (by linarith))
      rw [hq]
      exact_mod_cast le_trans
        (le_of_eq (List.length_take _ _)) (min_le_left _ _)

theorem C6_limit_clamping_witness :
    serverLimit none = JSNum.num 20 ∧
    ((serverGetPosts [] ⟨none, none, none, none⟩).posts.length : ℚ) ≤ 20 ∧
    ((listPosts [] none none none none).length : ℚ) ≤ 20 :=
  ⟨rfl, C6_limit_clamping.2.2.1 [] ⟨none, none, none, none⟩ 20 rfl,
   C6_limit_clamping.2.2.2 [] none none none none 20 rfl⟩

/-- C8: in both backends, the stored `petName` is at most 40 characters,
`petType` at most 24 and `"Other"` when the supplied value normalizes to
empty, `caption` at most 240; non-string inputs normalize to the empty
string (and hence `petType` to `"Other"`). -/
theorem C8_create_normalization :
    ∀ (petName petType caption : Option String) (id : String) (createdAt : Int)
      (imagePath imageUrl : String),
      ((mkFilePost petName petType caption id createdAt imagePath).petName.length ≤ 40 ∧
       (mkFilePost petName petType caption id createdAt imagePath).petType.length ≤ 24 ∧
       (mkFilePost petName petType caption id createdAt imagePath).caption.length ≤ 240 ∧
       (safeText petType 24 = "" →
         (mkFilePost petName petType caption id createdAt imagePath).petType = "Other") ∧
       (petName = none →
         (mkFilePost petName petType caption id createdAt imagePath).petName = "") ∧
       (caption = none →
         (mkFilePost petName petType caption id createdAt imagePath).caption = "")) ∧
      ((insertPost petName petType caption imageUrl id createdAt).pet_name.length ≤ 40 ∧
       (insertPost petName petType caption imageUrl id createdAt).pet_type.length ≤ 24 ∧
       (insertPost petName petType caption imageUrl id createdAt).caption.length ≤ 240 ∧
       (safeText petType 24 = "" →
         (insertPost petName petType caption imageUrl id createdAt).pet_type = "Other") ∧
       (petName = none →
         (insertPost petName petType caption imageUrl id createdAt).pet_name = "") ∧
       (caption = none →
         (insertPost petName petType caption imageUrl id createdAt).caption = "")) := by
  intro petName petType caption id createdAt imagePath imageUrl
  have htype : (jsOrString (safeText petType 24) "Other").length ≤ 24 := by
    rw [jsOrString]
    split
    · decide
    · exact safeText_length_le petType 24 (by omega)
  have hother : safeText petType 24 = "" →
      jsOrString (safeText petType 24) "Other" = "Other" := by
    intro h
    rw [jsOrString, if_pos h]
  constructor
  · exact ⟨safeText_length_le petName 40 (by omega), htype,
      safeText_length_le caption 240 (by omega), hother,
      fun h => by rw [show (mkFilePost petName petType caption id createdAt
        imagePath).petName = safeText petName 40 from rfl, h, safeText],
      fun h => by rw [show (mkFilePost petName petType caption id createdAt
        imagePath).caption = safeText caption 240 from rfl, h, safeText]⟩
  · exact ⟨safeText_length_le petName 40 (by omega), htype,
      safeText_length_le caption 240 (by omega), hother,
      fun h => by rw [show (insertPost petName petType caption imageUrl id
        createdAt).pet_name = safeText petName 40 from rfl, h, safeText],
      fun h => by rw [show (insertPost petName petType caption imageUrl id
        createdAt).caption = safeText caption 240 from rfl, h, safeText]⟩

theorem C8_create_normalization_witness :
    safeText (some "   ") 24 = "" ∧
    (mkFilePost (some "Rex") (some "   ") (some "hi") "p1" 100 "/u/p1").petType
      = "Other" ∧
    (insertPost none none none "u" "p2" 100).pet_name = "" :=
  ⟨by decide,
   (C8_create_normalization (some "Rex") (some "   ") (some "hi") "p1" 100
      "/u/p1" "u").1.2.2.2.1 (by decide),
   (C8_create_normalization none none none "p2" 100 "/u/p2" "u").2.2.2.2.2.1 rfl⟩

/-- C9: deleting an absent id returns the not-found signal and leaves the
records unchanged; a successful delete returns the stored record with that
id; and deleting the same id again reports not-found (for the flat file,
under the unique-id invariant of its primary key). -/
theorem C9_delete_idempotent :
    ∀ (posts : List FilePost) (table : List SqlRow) (id : String),
      (id ∉ posts.map FilePost.id → removeStore posts id = (none, posts)) ∧
      (∀ p, (removeStore posts id).1 = some p → p ∈ posts ∧ p.id = id) ∧
      ((posts.map FilePost.id).Nodup →
        (removeStore (removeStore posts id).2 id).1 = none) ∧
      (id ∉ table.map SqlRow.id → deletePostById table id = (none, table)) ∧
      (∀ r, (deletePostById table id).1 = some r → r ∈ table ∧ r.id = id) ∧
      (deletePostById (deletePostById table id).2 id).1 = none := by
  intro posts table id
  refine ⟨?_, ?_, removeStore_twice posts id, ?_, ?_, ?_⟩
  · intro hid
    rw [removeStore, List.find?_eq_none.mpr ?_]
    intro x hx
    simp only [decide_eq_true_eq]
    intro hxid
    exact hid (List.mem_map.mpr ⟨x, hx, hxid⟩)
  · intro p hp
    rw [removeStore] at hp
    cases hf : posts.find? (fun p => decide (p.id = id)) with
    | none => rw [hf] at hp; simp at hp
    | some p2 =>
        rw [hf] at hp
        simp only [Option.some.injEq] at hp
        subst hp
        exact ⟨List.mem_of_find?_eq_some hf, by
          have := List.find?_some hf
          simpa using this⟩
  · intro hid
    have hne : table.filter (fun r => decide (r.id ≠ id)) = table := by
      refine List.filter_eq_self.mpr ?_
      intro r hr
      simp only [decide_eq_true_eq]
      intro hrid
      exact hid (List.mem_map.mpr ⟨r, hr, hrid⟩)
    have hnil : table.filter (fun r => decide (r.id = id)) = [] := by
      refine List.filter_eq_nil_iff.mpr ?_
      intro r hr
      simp only [decide_eq_true_eq]
      intro hrid
      exact hid (List.mem_map.mpr ⟨r, hr, hrid⟩)
    rw [deletePostById, hnil, hne]
    rfl
  · intro r hr
    rw [deletePostById] at hr
    simp only [] at hr
    have hmem : r ∈ table.filter (fun r => decide (r.id = id)) := by
      cases hfl : table.filter (fun r => decide (r.id = id)) with
      | nil => rw [hfl] at hr; simp at hr
      | cons a as =>
          rw [hfl] at hr
          simp only [List.head?_cons, Option.some.injEq] at hr
          subst hr
          simp
    rw [List.mem_filter] at hmem
    exact ⟨hmem.1, by simpa using hmem.2⟩
  · rw [deletePostById]
    simp only []
    rw [show (deletePostById table id).2
        = table.filter (fun r => decide (r.id ≠ id)) from rfl]
    rw [List.filter_filter]
    rw [List.filter_eq_nil_iff.mpr ?_]
    · rfl
    · intro r hr
      simp


theorem C9_delete_idempotent_witness :
    "a" ∉ ([⟨"b", "Rex", "Dog", "hi", 100, "/u/b"⟩] : List FilePost).map FilePost.id ∧
    removeStore [⟨"b", "Rex", "Dog", "hi", 100, "/u/b"⟩] "a"
      = (none, [⟨"b", "Rex", "Dog", "hi", 100, "/u/b"⟩]) ∧
    (([⟨"b", "Rex", "Dog", "hi", 100, "/u/b"⟩] : List FilePost).map
      FilePost.id).Nodup ∧
    (removeStore
        (removeStore [⟨"b", "Rex", "Dog", "hi", 100, "/u/b"⟩] "b").2 "b").1
      = none ∧
    (deletePostById
        (deletePostById [⟨"b", "Rex", "Dog", "hi", "/u/b", 100⟩] "b").2 "b").1
      = none :=
  ⟨by decide,
   (C9_delete_idempotent [⟨"b", "Rex", "Dog", "hi", 100, "/u/b"⟩] [] "a").1
     (by decide),
   by decide,
   (C9_delete_idempotent [⟨"b", "Rex", "Dog", "hi", 100, "/u/b"⟩] [] "b").2.2.1
     (by decide),
   (C9_delete_idempotent [] [⟨"b", "Rex", "Dog", "hi", "/u/b", 100⟩]
     "b").2.2.2.2.2⟩

/-- C10 (amended): each create field is trimmed before the length cap is
applied, so no stored field begins with whitespace — but a stored field can
still end with whitespace when truncation at the cap cuts at an interior
space — and a whitespace-only `petType` is stored as `"Other"`. -/
theorem C10_trim_then_cap :
    (∀ (s : String) (n : Nat), n ≠ 0 →
        (safeText (some s) n).data = (jsTrimList s.data).take n) ∧
    (∀ (v : Option String) (n : Nat) (c : Char) (cs : List Char),
        (safeText v n).data = c :: cs → c.isWhitespace = false) ∧
    (∀ (s : String) (petName caption : Option String) (id : String)
        (createdAt : Int) (imagePath imageUrl : String),
        (∀ c ∈ s.data, c.isWhitespace = true) →
        (mkFilePost petName (some s) caption id createdAt imagePath).petType
          = "Other" ∧
        (insertPost petName (some s) caption imageUrl id createdAt).pet_type
          = "Other") := by
  refine ⟨?_, safeText_head_not_ws, ?_⟩
  · intro s n hn
    rw [safeText, if_neg hn]
  · intro s petName caption id createdAt imagePath imageUrl hws
    have h0 : safeText (some s) 24 = "" := by
      rw [safeText, if_neg (by omega), jsTrimList_all_ws s.data hws]
      rfl
    constructor
    · rw [show (mkFilePost petName (some s) caption id createdAt
          imagePath).petType = jsOrString (safeText (some s) 24) "Other" from rfl,
        h0]
      rfl
    · rw [show (insertPost petName (some s) caption imageUrl id
          createdAt).pet_type = jsOrString (safeText (some s) 24) "Other" from rfl,
        h0]
      rfl

theorem C10_trim_then_cap_witness :
    (safeText (some "  Rex the dog  ") 40).data
      = (jsTrimList "  Rex the dog  ".data).take 40 ∧
    (∀ c ∈ ("   ".data : List Char), c.isWhitespace = true) ∧
    (mkFilePost (some "Rex") (some "   ") (some "hi") "p1" 100 "/u/p1").petType
      = "Other" :=
  ⟨C10_trim_then_cap.1 "  Rex the dog  " 40 (by decide),
   by decide,
   (C10_trim_then_cap.2.2 "   " (some "Rex") (some "hi") "p1" 100 "/u/p1" "u"
     (by decide)).1⟩

/-- C10 counterexample: with the 41-character pet name
`"aaaaaaaaaaaaaaaaaaaaaaaaaaaaaaaaaaaaaaa x"` (39 `a`s, a space, an `x`),
trimming leaves the string unchanged and the 40-character cap cuts right
after the interior space, so the stored `petName` ends with whitespace —
the claim "no stored field begins or ends with whitespace" is false. -/
theorem C10_counterexample :
    (mkFilePost (some "aaaaaaaaaaaaaaaaaaaaaaaaaaaaaaaaaaaaaaa x") (some "Dog")
        (some "hi") "p1" 100 "/u/p1").petName.data.getLast? = some ' ' ∧
    (' ').isWhitespace = true := by
  decide

/-- C5: every input string that is not a well-formed token — not
base64url-decodable to UTF-8/JSON, not a JSON object, missing or
wrongly-typed `createdAt`/`id` fields, or (store codec) with a
non-parseable timestamp — makes `parseCursor` return the invalid sentinel
`none` (it is a total function, so it never raises), and the listing
operations treat that `none` exactly as an absent cursor. -/
theorem C5_invalid_cursor_sentinel :
    ∀ s : String,
      (¬ wellFormedServerCursor s → parseCursorServer (some s) = none) ∧
      (¬ wellFormedStoreCursor s → parseCursorStore (some s) = none) ∧
      (parseCursorServer (some s) = none →
        ∀ (posts : List FilePost) (limitQ : Option JSNum) (sortP qP : Option String),
          serverGetPosts posts ⟨limitQ, sortP, qP, some s⟩
            = serverGetPosts posts ⟨limitQ, sortP, qP, none⟩) ∧
      (parseCursorStore (some s) = none →
        ∀ (table : List SqlRow) (limitQ : Option JSNum) (sortP qP : Option String),
          listPosts table limitQ sortP qP (some s)
            = listPosts table limitQ sortP qP none) := by
  intro s
  refine ⟨?_, ?_, ?_, ?_⟩
  · intro hnwf
    rw [parseCursorServer]
    simp only []
    by_cases hs : s = ""
    · rw [if_pos hs]
    · rw [if_neg hs]
      cases hb : b64urlDecode s.data with
      | none => rfl
      | some bytes =>
          simp only []
          cases hu : utf8Decode bytes with
          | none => rfl
          | some chars =>
              simp only []
              cases hj : jsonParse chars with
              | none => rfl
              | some v =>
                  simp only []
                  cases v with
                  | null => rfl
                  | bool b => rfl
                  | num q => rfl
                  | str t => rfl
                  | arr es => rfl
                  | obj fields =>
                      simp only []
                      cases hcv : jGet fields "createdAt".data with
                      | none => rfl
                      | some cv =>
                          cases hiv : jGet fields "id".data with
                          | none => cases cv <;> rfl
                          | some iv =>
                              cases cv <;> cases iv <;> try rfl
                              exfalso
                              exact hnwf ⟨hs, chars, fields, _, _,
                                by rw [hb]; simpa using hu, hj, hcv, hiv⟩
  · intro hnwf
    rw [parseCursorStore]
    simp only []
    by_cases hs : s = ""
    · rw [if_pos hs]
    · rw [if_neg hs]
      cases hb : b64urlDecode s.data with
      | none => rfl
      | some bytes =>
          simp only []
          cases hu : utf8Decode bytes with
          | none => rfl
          | some chars =>
              simp only []
              cases hj : jsonParse chars with
              | none => rfl
              | some v =>
                  simp only []
                  cases v with
                  | null => rfl
                  | bool b => rfl
                  | num q => rfl
                  | str t => rfl
                  | arr es => rfl
                  | obj fields =>
                      simp only []
                      cases hcv : jGet fields "createdAt".data with
                      | none => rfl
                      | some cv =>
                          cases hiv : jGet fields "id".data with
                          | none => cases cv <;> rfl
                          | some iv =>
                              cases cv <;> cases iv <;> try rfl
                              rename_i ca i
                              by_cases hdate : isoToMs ⟨ca⟩ = none
                              · simp only []
                                rw [if_pos hdate]
                              · exfalso
                                exact hnwf ⟨hs, chars, fields, ca, i,
                                  by rw [hb]; simpa using hu, hj, hcv, hiv, hdate⟩
  · intro hp posts limitQ sortP qP
    simp only [serverGetPosts, hp]
    rfl
  · intro hp table limitQ sortP qP
    simp only [listPosts, hp]
    rfl

theorem C5_invalid_cursor_sentinel_witness :
    ¬ wellFormedServerCursor "garbage!!" ∧
    ¬ wellFormedStoreCursor "garbage!!" ∧
    parseCursorServer (some "garbage!!") = none ∧
    parseCursorStore (some "garbage!!") = none ∧
    serverGetPosts [] ⟨none, none, none, some "garbage!!"⟩
      = serverGetPosts [] ⟨none, none, none, none⟩ ∧
    listPosts [] none none none (some "garbage!!")
      = listPosts [] none none none none := by
  have hb : (b64urlDecode "garbage!!".data).bind utf8Decode = none := by decide
  have h1 : ¬ wellFormedServerCursor "garbage!!" := by
    rintro ⟨-, chars, -, -, -, hch, -⟩
    rw [hb] at hch
    cases hch
  have h2 : ¬ wellFormedStoreCursor "garbage!!" := by
    rintro ⟨-, chars, -, -, -, hch, -⟩
    rw [hb] at hch
    cases hch
  refine ⟨h1, h2, (C5_invalid_cursor_sentinel "garbage!!").1 h1,
    (C5_invalid_cursor_sentinel "garbage!!").2.1 h2,
    (C5_invalid_cursor_sentinel "garbage!!").2.2.1
      ((C5_invalid_cursor_sentinel "garbage!!").1 h1) [] none none none,
    (C5_invalid_cursor_sentinel "garbage!!").2.2.2
      ((C5_invalid_cursor_sentinel "garbage!!").2.1 h2) [] none none none⟩

/-! ## SQL LIKE as substring matching -/

theorem likeMatch_nil (t : List Char) : likeMatch [] t = t.isEmpty := by
  rw [likeMatch.eq_def]

theorem likeMatch_pct (ps t : List Char) :
    likeMatch ('%' :: ps) t =
      (likeMatch ps t ||
        (match t with
         | [] => false
         | _ :: t2 => likeMatch ('%' :: ps) t2)) := by
  rw [likeMatch.eq_def]
  rfl

theorem likeMatch_lit_cons (c : Char) (ps t : List Char)
    (h1 : c ≠ '%') (h2 : c ≠ '_') (h3 : c ≠ '\\') :
    likeMatch (c :: ps) t =
      (match t with
       | [] => false
       | c2 :: t2 => decide (c2 = c) && likeMatch ps t2) := by
  rw [likeMatch.eq_def]
  split
  · rename_i heq
    cases heq
  · rename_i heq
    injection heq with he _
    exact absurd he h1
  · rename_i heq
    injection heq with he _
    exact absurd he h2
  · rename_i heq
    injection heq with he _
    exact absurd he h3
  · rename_i c2 ps2 heq
    injection heq with he1 he2
    rw [he1, he2]

theorem likeMatch_pct_iff (ps t : List Char) :
    likeMatch ('%' :: ps) t = true ↔ ∃ k, likeMatch ps (t.drop k) = true := by
  induction t with
  | nil =>
      rw [likeMatch_pct]
      simp only [Bool.or_eq_true]
      constructor
      · rintro (h | h)
        · exact ⟨0, h⟩
        · cases h
      · rintro ⟨k, hk⟩
        left
        simpa using hk
  | cons c t2 ih =>
      rw [likeMatch_pct]
      simp only [Bool.or_eq_true]
      constructor
      · rintro (h | h)
        · exact ⟨0, h⟩
        · obtain ⟨k, hk⟩ := ih.mp h
          exact ⟨k + 1, by simpa using hk⟩
      · rintro ⟨k, hk⟩
        match k with
        | 0 =>
            left
            simpa using hk
        | k + 1 =>
            right
            exact ih.mpr ⟨k, by simpa using hk⟩

theorem likeMatch_all (t : List Char) : likeMatch ['%'] t = true := by
  rw [likeMatch_pct_iff]
  refine ⟨t.length, ?_⟩
  rw [List.drop_length, likeMatch_nil]
  rfl

theorem likeMatch_lit_front (q : List Char)
    (hq : ∀ c ∈ q, c ≠ '%' ∧ c ≠ '_' ∧ c ≠ '\\') (t : List Char) :
    likeMatch (q ++ ['%']) t = true ↔ q <+: t := by
  induction q generalizing t with
  | nil =>
      simp only [List.nil_append]
      constructor
      · intro _
        exact List.nil_prefix
      · intro _
        exact likeMatch_all t
  | cons c q2 ih =>
      obtain ⟨hc1, hc2, hc3⟩ := hq c (by simp)
      rw [List.cons_append, likeMatch_lit_cons c _ t hc1 hc2 hc3]
      cases t with
      | nil =>
          simp
      | cons c2 t2 =>
          simp only [Bool.and_eq_true, decide_eq_true_eq]
          rw [ih (fun x hx => hq x (by simp [hx])) t2]
          rw [List.cons_prefix_cons]
          constructor
          · rintro ⟨he, h⟩
            exact ⟨he.symm, h⟩
          · rintro ⟨he, h⟩
            exact ⟨he.symm, h⟩

theorem likeMatch_substring (q : List Char)
    (hq : ∀ c ∈ q, c ≠ '%' ∧ c ≠ '_' ∧ c ≠ '\\') (t : List Char) :
    likeMatch ('%' :: (q ++ ['%'])) t = true ↔ q <:+: t := by
  rw [likeMatch_pct_iff]
  constructor
  · rintro ⟨k, hk⟩
    exact ((likeMatch_lit_front q hq _).mp hk).isInfix.trans
      (List.drop_suffix k t).isInfix
  · rintro ⟨s, u, hsu⟩
    refine ⟨s.length, (likeMatch_lit_front q hq _).mpr ?_⟩
    rw [← hsu, List.append_assoc, List.drop_left]
    exact ⟨u, rfl⟩

/-! ## Pipeline membership helpers -/

theorem jsSlice_of_length_le (k : ℚ) (l : List α) (h : (l.length : ℚ) ≤ k) :
    jsSlice (.num k) l = l := by
  have hk : (0 : ℚ) ≤ k := le_trans (by positivity) h
  rw [jsSlice, if_pos hk]
  refine List.take_of_length_le ?_
  have h2 : (l.length : ℤ) ≤ jsTrunc k := by
    rw [jsTrunc, if_pos hk]
    exact Rat.le_floor.mpr (by exact_mod_cast h)
  omega

theorem serverSort_length (s : String) (l : List FilePost) :
    (serverSort s l).length = l.length := by
  rw [serverSort]
  split <;> simp

theorem mem_serverSort (s : String) (l : List FilePost) (p : FilePost) :
    p ∈ serverSort s l ↔ p ∈ l := by
  rw [serverSort]
  split <;> simp

/-- C7 (amended): the search term is first trimmed, truncated to 80
characters and lowercased; the flat-file listing then returns exactly the
posts whose lowercased `petName petType caption` concatenation contains
that processed term as a substring (everything, when the processed term is
empty); the SQL backend's `LIKE '%term%'` filter coincides with substring
matching whenever the processed term contains no `%`, `_` or `\`
wildcard/escape characters. -/
theorem C7_search_filter :
    (∀ (posts : List FilePost) (limitQ : Option JSNum) (sortP qP : Option String)
        (p : FilePost) (k : ℚ),
        serverLimit limitQ = JSNum.num k →
        ((serverFilterQ (jsToLower (safeText qP 80)) posts).length : ℚ) ≤ k →
        (p ∈ (serverGetPosts posts ⟨limitQ, sortP, qP, none⟩).posts ↔
          p ∈ posts ∧ (jsToLower (safeText qP 80) = "" ∨
            jsIncludes (postHaystack p) (jsToLower (safeText qP 80)) = true))) ∧
    (∀ (term hay : List Char),
        (∀ c ∈ term, c ≠ '%' ∧ c ≠ '_' ∧ c ≠ '\\') →
        (likeMatch ('%' :: term ++ ['%']) hay = true ↔ term <:+: hay)) := by
  constructor
  · intro posts limitQ sortP qP p k hk hlen
    rw [show (serverGetPosts posts ⟨limitQ, sortP, qP, none⟩).posts
        = jsSlice (serverLimit limitQ)
            (serverCursorFilter (sortParam sortP) (parseCursorServer none)
              (serverSort (sortParam sortP)
                (serverFilterQ (jsToLower (safeText qP 80)) posts))) from rfl]
    rw [show parseCursorServer none = none from rfl]
    rw [show ∀ l, serverCursorFilter (sortParam sortP) none l = l from fun l => rfl]
    rw [hk, jsSlice_of_length_le k _ (by rw [serverSort_length]; exact hlen)]
    rw [mem_serverSort]
    rw [serverFilterQ]
    by_cases hq : jsToLower (safeText qP 80) = ""
    · rw [if_neg (by simpa using hq)]
      simp [hq]
    · rw [if_pos (by simpa using hq)]
      rw [List.mem_filter]
      simp [hq]
  · intro term hay hterm
    rw [show ('%' :: term ++ ['%']) = '%' :: (term ++ ['%']) from rfl]
    exact likeMatch_substring term hterm hay

theorem C7_search_filter_witness :
    serverLimit none = JSNum.num 20 ∧
    ((serverFilterQ (jsToLower (safeText (some "Dog") 80))
        [⟨"p1", "Rex", "Dog", "hi", 100, "/u"⟩,
         ⟨"p2", "Mia", "Cat", "yo", 200, "/u2"⟩]).length : ℚ) ≤ 20 ∧
    (⟨"p1", "Rex", "Dog", "hi", 100, "/u"⟩ ∈
        (serverGetPosts
          [⟨"p1", "Rex", "Dog", "hi", 100, "/u"⟩,
           ⟨"p2", "Mia", "Cat", "yo", 200, "/u2"⟩]
          ⟨none, none, some "Dog", none⟩).posts ↔
      (⟨"p1", "Rex", "Dog", "hi", 100, "/u"⟩ : FilePost) ∈
          [⟨"p1", "Rex", "Dog", "hi", 100, "/u"⟩,
           ⟨"p2", "Mia", "Cat", "yo", 200, "/u2"⟩] ∧
        (jsToLower (safeText (some "Dog") 80) = "" ∨
          jsIncludes (postHaystack ⟨"p1", "Rex", "Dog", "hi", 100, "/u"⟩)
            (jsToLower (safeText (some "Dog") 80)) = true)) ∧
    (∀ c ∈ ("dog".data : List Char), c ≠ '%' ∧ c ≠ '_' ∧ c ≠ '\\') ∧
    (likeMatch ('%' :: "dog".data ++ ['%']) "big dog here".data = true ↔
      ("dog".data : List Char) <:+: "big dog here".data) := by
  have hlen : ((serverFilterQ (jsToLower (safeText (some "Dog") 80))
      [⟨"p1", "Rex", "Dog", "hi", 100, "/u"⟩,
       ⟨"p2", "Mia", "Cat", "yo", 200, "/u2"⟩]).length : ℚ) ≤ 20 := by
    rw [show (serverFilterQ (jsToLower (safeText (some "Dog") 80))
        [⟨"p1", "Rex", "Dog", "hi", 100, "/u"⟩,
         ⟨"p2", "Mia", "Cat", "yo", 200, "/u2"⟩]).length = 1 from rfl]
    norm_num
  exact ⟨rfl, hlen,
    C7_search_filter.1
      [⟨"p1", "Rex", "Dog", "hi", 100, "/u"⟩,
       ⟨"p2", "Mia", "Cat", "yo", 200, "/u2"⟩]
      none none (some "Dog") ⟨"p1", "Rex", "Dog", "hi", 100, "/u"⟩ 20 rfl hlen,
    by decide,
    C7_search_filter.2 "dog".data "big dog here".data (by decide)⟩

/-- C7 counterexample: the search term `" x "` is non-empty, and the post
`(petName "ax", petType "b", caption "c")` does not contain `" x "` as a
case-insensitive substring of its concatenation `"ax b c"`, yet the listing
returns it — because the code trims the term to `"x"` before matching.  The
claim as stated (filtering by the term itself) is therefore false. -/
theorem C7_counterexample :
    (serverGetPosts [⟨"p1", "ax", "b", "c", 100, "/u"⟩]
        ⟨none, none, some " x ", none⟩).posts
      = [⟨"p1", "ax", "b", "c", 100, "/u"⟩] ∧
    jsIncludes (postHaystack ⟨"p1", "ax", "b", "c", 100, "/u"⟩)
      (jsToLower " x ") = false := by
  refine ⟨?_, by decide⟩
  rw [show (serverGetPosts [⟨"p1", "ax", "b", "c", 100, "/u"⟩]
        ⟨none, none, some " x ", none⟩).posts
      = jsSlice (serverLimit none)
          (serverCursorFilter (sortParam none) (parseCursorServer none)
            (serverSort (sortParam none)
              (serverFilterQ (jsToLower (safeText (some " x ") 80))
                [⟨"p1", "ax", "b", "c", 100, "/u"⟩]))) from rfl]
  rw [show serverFilterQ (jsToLower (safeText (some " x ") 80))
        [⟨"p1", "ax", "b", "c", 100, "/u"⟩]
      = [⟨"p1", "ax", "b", "c", 100, "/u"⟩] from by decide]
  rw [serverSort, if_neg (by decide), List.mergeSort_singleton]
  rw [show parseCursorServer none = none from rfl, serverCursorFilter]
  decide

/-! ## C3: how each backend derives `nextCursor` -/

theorem optionMap_if (c : Bool) (g : Option α) (f : α → β) :
    (if c then g else none).map f = if c then g.map f else none := by
  cases c <;> simp

theorem serverGetPosts_nextCursor (posts : List FilePost) (qry : ListQuery) :
    (serverGetPosts posts qry).nextCursor
      = if jsEqNat (serverGetPosts posts qry).posts.length (serverLimit qry.limit)
        then ((serverGetPosts posts qry).posts.getLast?).map
          (fun p => makeCursorServer p.createdAt p.id)
        else none :=
  optionMap_if _ _ _

/-- C3 (amended): both backends derive `nextCursor` from the final returned
row, but they omit it under different conditions.  The flat-file handler
(`server.js`) sets `nextCursor` iff the page holds exactly the effective
limit of rows, as the claim states; the serverless API (`posts.js`) sets
`nextCursor` iff the page is non-empty (`rows.length ? ... : null`), so a
final short page still carries a cursor there. -/
theorem C3_next_cursor :
    (∀ (posts : List FilePost) (qry : ListQuery),
        (serverGetPosts posts qry).nextCursor
          = (if jsEqNat (serverGetPosts posts qry).posts.length
                (serverLimit qry.limit)
             then ((serverGetPosts posts qry).posts.getLast?).map
               (fun p => makeCursorServer p.createdAt p.id)
             else none) ∧
        ((serverGetPosts posts qry).nextCursor ≠ none ↔
          jsEqNat (serverGetPosts posts qry).posts.length
            (serverLimit qry.limit) = true)) ∧
    (∀ (table : List SqlRow) (limit : Option JSNum)
        (sort q cursor : Option String),
        (apiGetPosts table limit sort q cursor).nextCursor
          = ((listPosts table limit sort q cursor).getLast?).map
              (fun r => makeCursorStore (msToIso r.created_at) r.id) ∧
        ((apiGetPosts table limit sort q cursor).nextCursor = none ↔
          (apiGetPosts table limit sort q cursor).posts = [])) := by
  constructor
  · intro posts qry
    refine ⟨serverGetPosts_nextCursor posts qry, ?_⟩
    rw [serverGetPosts_nextCursor posts qry]
    by_cases hc : jsEqNat (serverGetPosts posts qry).posts.length
        (serverLimit qry.limit) = true
    · rw [if_pos hc]
      simp only [hc, iff_true]
      obtain ⟨k, hk, hk1, -⟩ := serverLimit_range qry.limit
      rw [hk] at hc
      have hkq : ((serverGetPosts posts qry).posts.length : ℚ) = k := by
        have := hc
        rw [jsEqNat] at this
        exact of_decide_eq_true this
      have hne : (serverGetPosts posts qry).posts ≠ [] := by
        intro h0
        rw [h0] at hkq
        simp at hkq
        rw [← hkq] at hk1
        norm_num at hk1
      intro hmap
      rw [Option.map_eq_none'] at hmap
      exact hne (List.getLast?_eq_none_iff.mp hmap)
    · rw [if_neg hc]
      simp [hc]
  · intro table limit sort q cursor
    refine ⟨rfl, ?_⟩
    show ((listPosts table limit sort q cursor).getLast?).map
        (fun r => makeCursorStore (msToIso r.created_at) r.id) = none ↔
      (listPosts table limit sort q cursor).map
        (fun r => (⟨r.id, r.pet_name, r.pet_type, r.caption,
          r.created_at, r.image_url⟩ : ApiPost)) = []
    rw [Option.map_eq_none', List.getLast?_eq_none_iff, List.map_eq_nil_iff]

/-- C3 counterexample: one stored row, default limit (effective 20): the
serverless API returns a page of 1 row — fewer than the limit — yet its
`nextCursor` is non-null, refuting "nextCursor is non-null if and only if
the page contains exactly limit rows" for `posts.js`. -/
theorem C3_counterexample :
    storeSafeLimit none = JSNum.num 20 ∧
    (apiGetPosts [⟨"r1", "Rex", "Dog", "hi", "/u", 100⟩]
        none none none none).posts.length = 1 ∧
    (apiGetPosts [⟨"r1", "Rex", "Dog", "hi", "/u", 100⟩]
        none none none none).nextCursor ≠ none := by
  have hrows : listPosts [⟨"r1", "Rex", "Dog", "hi", "/u", 100⟩]
      none none none none = [⟨"r1", "Rex", "Dog", "hi", "/u", 100⟩] := by
    simp only [listPosts]
    rw [if_neg (by decide)]
    rw [show ([⟨"r1", "Rex", "Dog", "hi", "/u", 100⟩] : List SqlRow).filter _
        = [⟨"r1", "Rex", "Dog", "hi", "/u", 100⟩] from by decide]
    rw [List.mergeSort_singleton]
    decide
  have hapi : apiGetPosts [⟨"r1", "Rex", "Dog", "hi", "/u", 100⟩]
      none none none none
      = ⟨[⟨"r1", "Rex", "Dog", "hi", 100, "/u"⟩],
         some (makeCursorStore (msToIso 100) "r1")⟩ := by
    simp only [apiGetPosts, hrows]
    rfl
  refine ⟨by decide, ?_, ?_⟩
  · rw [hapi]
    rfl
  · rw [hapi]
    simp

/-! ## C1: the two listings agree -/

theorem jsSlice_nonneg (k : ℚ) (hk : 0 ≤ k) (l : List α) :
    jsSlice (.num k) l = l.take (jsTrunc k).toNat := by
  rw [jsSlice, if_pos hk]

theorem likeMatch_eq_decide (q : List Char)
    (hq : ∀ c ∈ q, c ≠ '%' ∧ c ≠ '_' ∧ c ≠ '\\') (t : List Char) :
    likeMatch ('%' :: q ++ ['%']) t = decide (q <:+: t) := by
  rw [show ('%' :: q ++ ['%'] : List Char) = '%' :: (q ++ ['%']) from rfl]
  by_cases h : q <:+: t
  · rw [(likeMatch_substring q hq t).mpr h, decide_eq_true h]
  · rw [decide_eq_false h]
    cases hlm : likeMatch ('%' :: q ++ ['%']) t with
    | false => exact hlm
    | true => exact absurd ((likeMatch_substring q hq t).mp hlm) h

theorem rowOfPost_oldestLE (a b : FilePost) :
    oldestLE a b = sqlOldestLE (rowOfPost a) (rowOfPost b) := rfl

theorem rowOfPost_newestLE (a b : FilePost) :
    newestLE a b = sqlNewestLE (rowOfPost a) (rowOfPost b) := rfl

theorem sortParam_ne_oldest (o : Option String) (h : o ≠ some "oldest") :
    sortParam o ≠ "oldest" := by
  cases o with
  | none => rw [sortParam]; decide
  | some s =>
      rw [sortParam, Option.getD_some]
      intro hs
      exact h (by rw [hs])

theorem storeFilter_eq_serverFilter (q : String)
    (hq : ∀ c ∈ q.data, c ≠ '%' ∧ c ≠ '_' ∧ c ≠ '\\') (posts : List FilePost) :
    (posts.map rowOfPost).filter
        (fun r => decide (q = "") ||
          likeMatch ('%' :: q.data ++ ['%']) (rowHaystack r).data)
      = (serverFilterQ q posts).map rowOfPost := by
  by_cases hq0 : q = ""
  · subst hq0
    rw [serverFilterQ, if_neg (by simp)]
    simp
  · rw [serverFilterQ, if_pos (by simpa using hq0)]
    rw [List.filter_map]
    congr 1
    apply List.filter_congr
    intro p _
    show (decide (q = "") ||
        likeMatch ('%' :: q.data ++ ['%']) (rowHaystack (rowOfPost p)).data)
      = jsIncludes (postHaystack p) q
    rw [decide_eq_false hq0, Bool.false_or]
    rw [show rowHaystack (rowOfPost p) = postHaystack p from rfl]
    exact likeMatch_eq_decide q.data hq (postHaystack p).data

/-- C1 (amended): over the same logical record set, with no cursor, with a
processed search term free of SQL wildcard/escape characters, and for any
limit on which the two backends' distinct limit parsers agree (all integer
limits in [1, 50], and absent limits, qualify), `listPosts` returns exactly
the flat-file handler's page, row for row and in the same order.  The
unamended claim fails for limit inputs the parsers read differently (e.g.
`"0"`), for cursors (the token formats are incompatible), and for search
terms containing `%`, `_` or `\`. -/
theorem C1_backend_equivalence :
    ∀ (posts : List FilePost) (limitQ : Option JSNum) (sortP qP : Option String),
      serverLimit limitQ = storeSafeLimit limitQ →
      (∀ c ∈ (jsToLower (safeText qP 80)).data, c ≠ '%' ∧ c ≠ '_' ∧ c ≠ '\\') →
      listPosts (posts.map rowOfPost) limitQ sortP qP none
        = ((serverGetPosts posts ⟨limitQ, sortP, qP, none⟩).posts).map rowOfPost := by
  intro posts limitQ sortP qP hlim hq
  obtain ⟨k, hk, hk1, -⟩ := storeSafeLimit_range limitQ
  rw [show (serverGetPosts posts ⟨limitQ, sortP, qP, none⟩).posts
      = jsSlice (serverLimit limitQ)
          (serverSort (sortParam sortP)
            (serverFilterQ (jsToLower (safeText qP 80)) posts)) from rfl]
  rw [hlim, hk, jsSlice_nonneg k (by linarith)]
  simp only [listPosts]
  rw [hk]
  rw [show limitCount (JSNum.num k) = (jsTrunc k).toNat from rfl]
  simp only [show parseCursorStore none = none from rfl, Bool.and_true]
  by_cases hs : sortP = some "oldest"
  · subst hs
    rw [if_pos (show (if (some "oldest" : Option String) = some "oldest"
        then "oldest" else "newest") = "oldest" from rfl)]
    rw [show sortParam (some "oldest") = "oldest" from rfl, serverSort,
      if_pos rfl]
    rw [List.map_take]
    rw [@List.map_mergeSort _ _ oldestLE sqlOldestLE rowOfPost _
      (fun a _ b _ => rowOfPost_oldestLE a b)]
    rw [storeFilter_eq_serverFilter _ hq]
  · rw [if_neg (show ¬ (if sortP = some "oldest" then "oldest" else "newest")
        = "oldest" from by rw [if_neg hs]; decide)]
    rw [serverSort, if_neg (sortParam_ne_oldest sortP hs)]
    rw [List.map_take]
    rw [@List.map_mergeSort _ _ newestLE sqlNewestLE rowOfPost _
      (fun a _ b _ => rowOfPost_newestLE a b)]
    rw [storeFilter_eq_serverFilter _ hq]

theorem C1_backend_equivalence_witness :
    serverLimit (some (.num 5)) = storeSafeLimit (some (.num 5)) ∧
    (∀ c ∈ (jsToLower (safeText (some "Dog") 80)).data,
      c ≠ '%' ∧ c ≠ '_' ∧ c ≠ '\\') ∧
    listPosts (([⟨"a", "Rex", "Dog", "hi", 100, "/u"⟩,
        ⟨"b", "Mia", "Cat", "yo", 200, "/v"⟩] : List FilePost).map rowOfPost)
        (some (.num 5)) none (some "Dog") none
      = ((serverGetPosts
          [⟨"a", "Rex", "Dog", "hi", 100, "/u"⟩,
           ⟨"b", "Mia", "Cat", "yo", 200, "/v"⟩]
          ⟨some (.num 5), none, some "Dog", none⟩).posts).map rowOfPost :=
  ⟨by decide, by decide,
   C1_backend_equivalence
     [⟨"a", "Rex", "Dog", "hi", 100, "/u"⟩,
      ⟨"b", "Mia", "Cat", "yo", 200, "/v"⟩]
     (some (.num 5)) none (some "Dog") (by decide) (by decide)⟩

/-- C1 counterexample: identical inputs (`limit` whose `Number` is `0`, no
sort, no search, no cursor) over the same two-record set: the flat-file
handler's `Number.isFinite` path clamps the limit to 1 and returns one
post, while `listPosts`'s `Number(limit) || 20` path treats `0` as falsy,
uses 20, and returns both rows — different results, refuting the claim. -/
theorem C1_counterexample :
    (serverGetPosts
        [⟨"a", "Rex", "Dog", "hi", 100, "/u"⟩,
         ⟨"b", "Mia", "Cat", "yo", 200, "/v"⟩]
        ⟨some (.num 0), none, none, none⟩).posts.length = 1 ∧
    (listPosts
        (([⟨"a", "Rex", "Dog", "hi", 100, "/u"⟩,
           ⟨"b", "Mia", "Cat", "yo", 200, "/v"⟩] : List FilePost).map rowOfPost)
        (some (.num 0)) none none none).length = 2 := by
  constructor
  · rw [show (serverGetPosts
          [⟨"a", "Rex", "Dog", "hi", 100, "/u"⟩,
           ⟨"b", "Mia", "Cat", "yo", 200, "/v"⟩]
          ⟨some (.num 0), none, none, none⟩).posts
        = jsSlice (serverLimit (some (.num 0)))
            (serverSort (sortParam none)
              (serverFilterQ (jsToLower (safeText none 80))
                [⟨"a", "Rex", "Dog", "hi", 100, "/u"⟩,
                 ⟨"b", "Mia", "Cat", "yo", 200, "/v"⟩])) from rfl]
    rw [show serverFilterQ (jsToLower (safeText none 80))
          [⟨"a", "Rex", "Dog", "hi", 100, "/u"⟩,
           ⟨"b", "Mia", "Cat", "yo", 200, "/v"⟩]
        = [⟨"a", "Rex", "Dog", "hi", 100, "/u"⟩,
           ⟨"b", "Mia", "Cat", "yo", 200, "/v"⟩] from rfl]
    rw [serverSort, if_neg (by decide)]
    rw [show ([⟨"a", "Rex", "Dog", "hi", 100, "/u"⟩,
          ⟨"b", "Mia", "Cat", "yo", 200, "/v"⟩] : List FilePost).mergeSort
          newestLE
        = [⟨"b", "Mia", "Cat", "yo", 200, "/v"⟩,
           ⟨"a", "Rex", "Dog", "hi", 100, "/u"⟩] from by
      simp [List.mergeSort, List.merge, newestLE]]
    decide
  · have hrows : listPosts
        (([⟨"a", "Rex", "Dog", "hi", 100, "/u"⟩,
           ⟨"b", "Mia", "Cat", "yo", 200, "/v"⟩] : List FilePost).map rowOfPost)
        (some (.num 0)) none none none
        = [⟨"b", "Mia", "Cat", "yo", "/v", 200⟩,
           ⟨"a", "Rex", "Dog", "hi", "/u", 100⟩] := by
      rw [show ([⟨"a", "Rex", "Dog", "hi", 100, "/u"⟩,
            ⟨"b", "Mia", "Cat", "yo", 200, "/v"⟩] : List FilePost).map rowOfPost
          = [⟨"a", "Rex", "Dog", "hi", "/u", 100⟩,
             ⟨"b", "Mia", "Cat", "yo", "/v", 200⟩] from rfl]
      simp only [listPosts]
      rw [if_neg (by decide)]
      rw [show ([⟨"a", "Rex", "Dog", "hi", "/u", 100⟩,
            ⟨"b", "Mia", "Cat", "yo", "/v", 200⟩] : List SqlRow).filter _
          = [⟨"a", "Rex", "Dog", "hi", "/u", 100⟩,
             ⟨"b", "Mia", "Cat", "yo", "/v", 200⟩] from by decide]
      rw [show ([⟨"a", "Rex", "Dog", "hi", "/u", 100⟩,
            ⟨"b", "Mia", "Cat", "yo", "/v", 200⟩] : List SqlRow).mergeSort
            sqlNewestLE
          = [⟨"b", "Mia", "Cat", "yo", "/v", 200⟩,
             ⟨"a", "Rex", "Dog", "hi", "/u", 100⟩] from by
        simp [List.mergeSort, List.merge, sqlNewestLE]]
      decide
    rw [hrows]
    rfl

/-! ## C2: full pagination through the flat-file backend -/

